import Mathlib

/-!
Verification model of the pg-xpatch delta-compression table access method.

The development shallowly embeds the engine's core operations:
  - the codec boundary (src/xpatch_compress.c), kept abstract as a
    structure of encode / decode / tag extraction functions;
  - physical row storage, sequence scanning and delta-chain
    reconstruction (src/xpatch_storage.c);
  - the group max-sequence cache (src/xpatch_seq_cache.c);
  - the per-group FIFO insert cache, committed-entry view
    (src/xpatch_insert_cache.c);
  - the insert and cascade-delete paths (src/xpatch_tam.c,
    src/xpatch_storage.c: xpatch_logical_to_physical);
  - the striped content cache at two levels: the open-addressed probe
    array with tombstones, and the keyed value view with the size limit
    (src/xpatch_cache.c);
  - the reloption check on the _xp_seq column (src/xpatch_config.c).

Conventions: byte strings are `List Nat`; sequence numbers are `Int`
(the C code stores them in an `int32` column and the caches hold
`int64`; all values arising here stay far below either bound, and the
`int32` datum conversion is modelled explicitly where claim C6 needs
it); groups are identified by a `Nat` standing for the group value
(the 128-bit keyed hash of the C code is injective for the purposes of
this model). PostgreSQL `ereport(ERROR, ...)` aborts are modelled with
`Except`: `XErr.corrupted` for ERRCODE_DATA_CORRUPTED aborts and
`XErr.internal` for ERRCODE_INTERNAL_ERROR. MVCC visibility collapses
to a `deleted` flag: scans skip rows whose deleting transaction
committed. The advisory per-group lock serialises inserts and deletes,
so the model is a sequential state machine.
-/

namespace PgXpatch

/-- Error classes raised through PostgreSQL ereport on the modelled paths. -/
inductive XErr where
  | corrupted : XErr
  | internal : XErr
deriving Repr, DecidableEq

/-- The codec boundary of src/xpatch_compress.c wrapping libxpatch_c.
`encode tag base new zstd` returns `none` when the library returns NULL
(xpatch_encode_delta logs a WARNING and returns NULL). `decode base blob`
models xpatch_decode_delta, which raises ERRCODE_DATA_CORRUPTED on a
library error, hence `Except`. `tag_of` models xpatch_get_delta_tag,
returning an error message or the extracted tag. -/
structure Codec where
  encode : Nat → List Nat → List Nat → Bool → Option (List Nat)
  decode : List Nat → List Nat → Except Unit (List Nat)
  tag_of : List Nat → Except Unit Nat

/-- The stated codec contract (spec section 4.1): decoding an encode
result against the same base returns the encoded content, and the tag
round-trips. -/
def Codec.Contract (C : Codec) : Prop :=
  ∀ t b x z blob, C.encode t b x z = some blob →
    C.decode b blob = .ok x ∧ C.tag_of blob = .ok t

/-- Totality of the encoder: it only fails on out-of-memory, which the
happy-path scenarios exclude. -/
def Codec.EncodeTotal (C : Codec) : Prop :=
  ∀ t b x z, ∃ blob, C.encode t b x z = some blob ∧ blob ≠ []

/-- A concrete codec used for witnesses: the blob is the tag consed onto
the content, decoding ignores the base. It satisfies the contract. -/
def trivialCodec : Codec where
  encode := fun t _ x _ => some (t :: x)
  decode := fun _ b => match b with
    | [] => .error ()
    | _ :: x => .ok x
  tag_of := fun b => match b with
    | [] => .error ()
    | t :: _ => .ok t

/-- A physical row: group value, the _xp_seq column, the order_by
(version) column, one optional delta blob per configured delta column
(`none` is SQL NULL), and the committed-delete mark. -/
structure PhysRow where
  group : Nat
  seq : Int
  version : Int
  blobs : List (Option (List Nat))
  deleted : Bool
deriving Repr, DecidableEq

/-- A logical row as supplied by INSERT, without an explicit _xp_seq
(normal mode; restore mode with a user-supplied sequence is outside this
model). `cols` are the non-NULL raw contents of the delta columns. -/
structure LogicalRow where
  group : Nat
  version : Int
  cols : List (List Nat)
deriving Repr, DecidableEq

/-- Per-table configuration (XPatchConfig, src/xpatch_config.h). -/
structure XPatchConfig where
  keyframe_every : Nat
  compress_depth : Nat
  num_delta_columns : Nat
  enable_zstd : Bool
deriving Repr, DecidableEq

/-- xpatch_fetch_tuple_by_seq (src/xpatch_storage.c): find the physical
row of the group carrying the wanted sequence number. The seq-TID cache
and index strategies consulted first are visibility-checked shortcuts,
but the sequential-scan fallback they degrade to matches only the group
and _xp_seq values with NO visibility check, so a committed-deleted row
still on the page is found and returned. -/
def xpatch_fetch_by_seq (rows : List PhysRow) (g : Nat) (s : Int) : Option PhysRow :=
  rows.find? (fun r => r.group == g && r.seq == s)

/-- The table-scan part of xpatch_get_max_seq (src/xpatch_storage.c):
maximum _xp_seq over the visible rows of the group, 0 when empty. -/
def xpatch_scan_max_seq (rows : List PhysRow) (g : Nat) : Int :=
  rows.foldl (fun m r => if !r.deleted && r.group == g && m < r.seq then r.seq else m) 0

/-! The group max-sequence cache (src/xpatch_seq_cache.c). The
open-addressed hash table with its LRU list is modelled as an
association list of entries keyed by (relid, group); `none` models an
unavailable cache (seq_cache_initialized false / group_cache NULL). -/

/-- One entry of the group cache (GroupSeqEntry). -/
structure GroupSeqEntry where
  relid : Nat
  group : Nat
  max_seq : Int
deriving Repr, DecidableEq

/-- The group sub-cache state; `none` means the cache is unavailable. -/
abbrev GroupSeqCache := Option (List GroupSeqEntry)

/-- Key match used by group_cache_find. -/
def gsc_match (relid g : Nat) (e : GroupSeqEntry) : Bool :=
  e.relid == relid && e.group == g

/-- xpatch_seq_cache_get_max_seq: return the cached value when the entry
exists (the LRU touch does not change the map view). -/
def seq_cache_get_max_seq (st : GroupSeqCache) (relid g : Nat) : Option Int :=
  match st with
  | none => none
  | some es => (es.find? (gsc_match relid g)).map (·.max_seq)

/-- xpatch_seq_cache_set_max_seq: upsert the entry (eviction on a full
table only drops entries, which the association list leaves implicit). -/
def seq_cache_set_max_seq (st : GroupSeqCache) (relid g : Nat) (v : Int) : GroupSeqCache :=
  match st with
  | none => none
  | some es =>
      if es.any (gsc_match relid g) then
        some (es.map (fun e => if gsc_match relid g e then { e with max_seq := v } else e))
      else
        some (es ++ [⟨relid, g, v⟩])

/-- xpatch_seq_cache_next_seq: increment and return when the entry is
present; return the 0 sentinel (fall back to a scan) when it is absent
or the cache is unavailable. -/
def seq_cache_next_seq (st : GroupSeqCache) (relid g : Nat) : GroupSeqCache × Int :=
  match st with
  | none => (none, 0)
  | some es =>
      match es.find? (gsc_match relid g) with
      | none => (some es, 0)
      | some e =>
          (some (es.map (fun e' => if gsc_match relid g e' then { e' with max_seq := e'.max_seq + 1 } else e')),
           e.max_seq + 1)

/-- xpatch_seq_cache_rollback_seq: decrement the cached value only when
it equals `expected`; in every other case (mismatch, absent entry,
unavailable cache) leave the state unchanged and report false. -/
def seq_cache_rollback_seq (st : GroupSeqCache) (relid g : Nat) (expected : Int) :
    GroupSeqCache × Bool :=
  match st with
  | none => (none, false)
  | some es =>
      match es.find? (gsc_match relid g) with
      | none => (some es, false)
      | some e =>
          if e.max_seq == expected then
            (some (es.map (fun e' => if gsc_match relid g e' then { e' with max_seq := e'.max_seq - 1 } else e')),
             true)
          else
            (some es, false)

/-- xpatch_get_max_seq (src/xpatch_storage.c): consult the group cache
first; on a miss scan the table and write the scanned maximum back.
Returns the possibly updated cache together with the maximum. -/
def xpatch_get_max_seq (cache : GroupSeqCache) (rows : List PhysRow) (relid g : Nat) :
    GroupSeqCache × Int :=
  match seq_cache_get_max_seq cache relid g with
  | some v => (cache, v)
  | none =>
      let m := xpatch_scan_max_seq rows g
      (seq_cache_set_max_seq cache relid g m, m)

/-! Delta-chain reconstruction (src/xpatch_storage.c). The C functions
xpatch_reconstruct_column and xpatch_reconstruct_from_delta are mutually
recursive through the base lookup; the recursion strictly decreases the
sequence number. The embedding passes the recursive descent to
xpatch_reconstruct_from_delta explicitly and drives
xpatch_reconstruct_column by fuel, instantiated with seq + 1 in the
wrapper `xpatch_reconstruct` (the chain below sequence s is shorter
than s, so the fuel never runs out on the guarded branch). The shared
LRU content cache consulted first is advisory (its presence must match
what reconstruction would produce) and is modelled as always missing. -/

/-- xpatch_reconstruct_from_delta: extract the tag; tag 0 decodes
against the empty base; a delta tag t computes base_seq = seq - t,
raises ERRCODE_DATA_CORRUPTED when base_seq < 1, otherwise reconstructs
the base through `recon` and decodes against it (or against the empty
base when the base row was not found, i.e. `recon` returned NULL). -/
def xpatch_reconstruct_from_delta (C : Codec)
    (recon : Int → Except XErr (Option (List Nat)))
    (s : Int) (blob : List Nat) : Except XErr (List Nat) :=
  match C.tag_of blob with
  | .error _ => .error .corrupted
  | .ok 0 =>
      match C.decode [] blob with
      | .error _ => .error .corrupted
      | .ok v => .ok v
  | .ok (t + 1) =>
      let base_seq : Int := s - ((t : Int) + 1)
      if base_seq < 1 then .error .corrupted
      else
        match recon base_seq with
        | .error e => .error e
        | .ok none =>
            match C.decode [] blob with
            | .error _ => .error .corrupted
            | .ok v => .ok v
        | .ok (some base) =>
            match C.decode base blob with
            | .error _ => .error .corrupted
            | .ok v => .ok v

/-- xpatch_reconstruct_column: fetch the physical row by sequence
(returning NULL — `ok none` — after a WARNING when it is missing, so
callers can degrade), return NULL when the column is NULL, otherwise
reconstruct from the stored delta blob. Fuel bounds the recursion. -/
def xpatch_reconstruct_column (C : Codec) (rows : List PhysRow) (g : Nat) (c : Nat) :
    Nat → Int → Except XErr (Option (List Nat))
  | 0, _ => .error .corrupted
  | fuel + 1, s =>
      match xpatch_fetch_by_seq rows g s with
      | none => .ok none
      | some r =>
          match r.blobs.getD c none with
          | none => .ok none
          | some blob =>
              match xpatch_reconstruct_from_delta C
                  (fun bs => xpatch_reconstruct_column C rows g c fuel bs) s blob with
              | .error e => .error e
              | .ok v => .ok (some v)

/-- Reconstruction entry point at sequence s: the recursion needs at
most one step per sequence value below s. -/
def xpatch_reconstruct (C : Codec) (rows : List PhysRow) (g : Nat) (s : Int) (c : Nat) :
    Except XErr (Option (List Nat)) :=
  xpatch_reconstruct_column C rows g c (s.toNat + 1) s

/-! The per-group FIFO insert cache (src/xpatch_insert_cache.c),
committed-entry view: only entries made valid by
xpatch_insert_cache_commit_entry are visible to get_bases, so the model
holds, per group, the list of committed ring entries, most recent
first, capped at the table's compress_depth. Slot eviction and the
ownership re-checks cannot fire in the single-backend model. -/

/-- One committed ring entry: its sequence and the pushed per-column
contents (`none` where the push was skipped for a NULL or empty value). -/
structure FifoEntry where
  seq : Int
  cols : List (Option (List Nat))
deriving Repr, DecidableEq

/-- FIFO slots: association of group to committed entries. -/
abbrev FifoState := List (Nat × List FifoEntry)

/-- Find the slot of a group (xpatch_insert_cache_get_slot hit). -/
def fifo_lookup (fifo : FifoState) (g : Nat) : Option (List FifoEntry) :=
  (fifo.find? (fun p => p.1 == g)).map (·.2)

/-- Replace or create the slot of a group. -/
def fifo_set (fifo : FifoState) (g : Nat) (es : List FifoEntry) : FifoState :=
  if fifo.any (fun p => p.1 == g) then
    fifo.map (fun p => if p.1 == g then (p.1, es) else p)
  else fifo ++ [(g, es)]

/-- xpatch_insert_cache_push stores nothing for empty content
(size == 0 returns early), so a pushed value normalises to `none` when
empty. -/
def fifo_push_content (v : Option (List Nat)) : Option (List Nat) :=
  match v with
  | none => none
  | some d => if d.length == 0 then none else some d

/-- xpatch_insert_cache_get_bases: walk the committed entries from the
most recent, keep those whose tag new_seq - entry_seq lies in 1..depth
and whose column content is valid and non-empty, then sort ascending by
tag (closest base first). -/
def insert_cache_get_bases (entries : List FifoEntry) (depth : Nat) (new_seq : Int)
    (c : Nat) : List (Nat × List Nat) :=
  List.insertionSort (fun a b => a.1 ≤ b.1)
    (entries.filterMap (fun e =>
      if new_seq - e.seq < 1 || (depth : Int) < new_seq - e.seq then none
      else
        match e.cols.getD c none with
        | none => none
        | some d => if d.length == 0 then none else some ((new_seq - e.seq).toNat, d)))

/-- One step of the warm-path winner scan of xpatch_logical_to_physical:
keep the first strictly smallest valid result, skipping invalid results
and results of size 0. -/
def warm_step (best : Option (Nat × List Nat)) (r : Nat × Option (List Nat)) :
    Option (Nat × List Nat) :=
  match r.2 with
  | none => best
  | some d =>
      if d.length == 0 then best
      else
        match best with
        | none => some (r.1, d)
        | some b => if d.length < b.2.length then some (r.1, d) else some b

/-- The warm-path winner scan over all candidate results. -/
def pick_smallest_warm (results : List (Nat × Option (List Nat))) : Option (Nat × List Nat) :=
  results.foldl warm_step none

/-- One step of the cold-path winner scan: keep the first strictly
smallest candidate (the VARSIZE comparison of the C code orders by
content length plus a constant header). -/
def cold_step (best : Option (Nat × List Nat)) (r : Nat × Option (List Nat)) :
    Option (Nat × List Nat) :=
  match r.2 with
  | none => best
  | some d =>
      match best with
      | none => some (r.1, d)
      | some b => if d.length < b.2.length then some (r.1, d) else some b

/-- The cold-path winner scan over the sequential candidates. -/
def pick_smallest_cold (cands : List (Nat × Option (List Nat))) : Option (Nat × List Nat) :=
  cands.foldl cold_step none

/-- The cold-path candidate loop of xpatch_logical_to_physical: for tag
1..depth reconstruct the base at new_seq - tag (stopping once the base
sequence falls below 1, which all later tags also do), skip missing
bases, and encode the new content against each base found.
Reconstruction errors abort the statement. -/
def cold_candidates (C : Codec) (rows : List PhysRow) (g : Nat) (depth : Nat)
    (new_seq : Int) (c : Nat) (x : List Nat) (z : Bool) :
    Except XErr (List (Nat × Option (List Nat))) :=
  ((List.range depth).map (· + 1)).foldlM (fun acc (t : Nat) =>
    let base_seq : Int := new_seq - Int.ofNat t
    if base_seq < 1 then pure acc
    else
      match xpatch_reconstruct C rows g base_seq c with
      | .error e => .error e
      | .ok none => pure acc
      | .ok (some base) => pure (acc ++ [(t, C.encode t base x z)])) []

/-- Keyframe encoding of one column: tag 0 against the empty base; a
NULL result raises ERRCODE_INTERNAL_ERROR (compression failed). -/
def encode_keyframe_column (C : Codec) (x : List Nat) (z : Bool) : Except XErr (List Nat) :=
  match C.encode 0 [] x z with
  | some d => .ok d
  | none => .error .internal

/-- The candidate selection of the delta branch: the warm path encodes
against each FIFO base and keeps the smallest; when the FIFO yields no
bases, the cold path runs the sequential loop. Returns the chosen
(tag, blob) winner or none when no candidate succeeded. -/
def delta_candidate_choice (C : Codec) (rows : List PhysRow) (g : Nat)
    (entries : List FifoEntry) (depth : Nat) (new_seq : Int) (c : Nat)
    (x : List Nat) (z : Bool) : Except XErr (Option (Nat × List Nat)) :=
  if 0 < (insert_cache_get_bases entries depth new_seq c).length then
    .ok (pick_smallest_warm
      ((insert_cache_get_bases entries depth new_seq c).map
        (fun p => (p.1, C.encode p.1 p.2 x z))))
  else
    match cold_candidates C rows g depth new_seq c x z with
    | .error e => .error e
    | .ok cands => .ok (pick_smallest_cold cands)

/-- Delta encoding of one column in xpatch_logical_to_physical: when
the FIFO yields bases, encode against each and keep the smallest (warm
path); otherwise run the cold-path loop. When no candidate succeeds,
fall back to keyframe encoding; only if that also fails is
ERRCODE_INTERNAL_ERROR raised. -/
def encode_delta_column (C : Codec) (rows : List PhysRow) (g : Nat)
    (entries : List FifoEntry) (depth : Nat) (new_seq : Int) (c : Nat)
    (x : List Nat) (z : Bool) : Except XErr (List Nat) :=
  match delta_candidate_choice C rows g entries depth new_seq c x z with
  | .error e => .error e
  | .ok (some b) => .ok b.2
  | .ok none =>
      match C.encode 0 [] x z with
      | some d => .ok d
      | none => .error .internal

/-- xpatch_insert_cache_populate: on a cold slot, reconstruct the last
min(depth, current_max) sequences (oldest first in the C loop; the
committed view lists them most recent first) and push each column's
content. Reconstruction errors abort the statement. -/
def insert_cache_populate (C : Codec) (rows : List PhysRow) (g : Nat) (ncols : Nat)
    (depth : Nat) (current_max : Int) : Except XErr (List FifoEntry) :=
  let n : Nat := min depth current_max.toNat
  ((List.range n).map (fun i => current_max - Int.ofNat i)).mapM (fun s => do
    let cols ← (List.range ncols).mapM (fun c => do
      let v ← xpatch_reconstruct C rows g s c
      pure (fifo_push_content v))
    pure (⟨s, cols⟩ : FifoEntry))

/-- The engine state a single backend sees: heap rows, the group
max-sequence cache, and the FIFO insert cache. -/
structure EngineState where
  rows : List PhysRow
  seq_cache : GroupSeqCache
  fifo : FifoState
deriving Repr, DecidableEq

/-- The empty engine state (fresh table, warm empty caches). -/
def init_state : EngineState := ⟨[], some [], []⟩

/-- The sequence-allocation step of xpatch_logical_to_physical, normal
mode: xpatch_seq_cache_next_seq, falling back on the 0 sentinel to the
scan of xpatch_get_max_seq plus one, writing the allocation back. -/
def xpatch_alloc_seq (relid : Nat) (cache : GroupSeqCache) (rows : List PhysRow)
    (g : Nat) : GroupSeqCache × Int :=
  let p := seq_cache_next_seq cache relid g
  if p.2 == 0 then
    let q := xpatch_get_max_seq p.1 rows relid g
    (seq_cache_set_max_seq q.1 relid g (q.2 + 1), q.2 + 1)
  else p

/-- The FIFO-slot acquisition step of xpatch_logical_to_physical: an
existing slot is used as is; a cold slot starts empty and, for a
non-keyframe insert past sequence 1, is populated from reconstruction. -/
def xpatch_acquire_entries (C : Codec) (cfg : XPatchConfig) (st : EngineState)
    (g : Nat) (new_seq : Int) (is_kf : Bool) : Except XErr (List FifoEntry) :=
  match fifo_lookup st.fifo g with
  | some es => .ok es
  | none =>
      if 1 < new_seq && !is_kf then
        insert_cache_populate C st.rows g cfg.num_delta_columns cfg.compress_depth (new_seq - 1)
      else .ok []

/-- xpatch_logical_to_physical (src/xpatch_storage.c), normal mode (no
user-supplied _xp_seq): allocate the sequence through the cache with
scan fallback, decide the keyframe, acquire and possibly populate the
FIFO slot, and encode every delta column. Returns the allocation
outcome (cache state and out_seq, available for rollback even on
failure) together with either the encoded blobs and the new committed
FIFO entries, or the error that aborts the statement. -/
def xpatch_logical_to_physical (C : Codec) (cfg : XPatchConfig) (relid : Nat)
    (st : EngineState) (row : LogicalRow) :
    (GroupSeqCache × Int) × Except XErr (List (List Nat) × List FifoEntry) :=
  let g := row.group
  let a := xpatch_alloc_seq relid st.seq_cache st.rows g
  let cache1 := a.1
  let new_seq := a.2
  let is_keyframe := new_seq == 1 || new_seq % (cfg.keyframe_every : Int) == 1
  let entries0 := xpatch_acquire_entries C cfg st g new_seq is_keyframe
  ((cache1, new_seq),
    match entries0 with
    | .error e => .error e
    | .ok es => do
        let blobs ← row.cols.enum.mapM (fun pc =>
          if is_keyframe then encode_keyframe_column C pc.2 cfg.enable_zstd
          else encode_delta_column C st.rows g es cfg.compress_depth new_seq pc.1 pc.2 cfg.enable_zstd)
        pure (blobs,
          ((⟨new_seq, row.cols.map (fun x => fifo_push_content (some x))⟩ : FifoEntry)
            :: es).take cfg.compress_depth))

/-- xpatch_tuple_insert (src/xpatch_tam.c): form the physical tuple and
append it to the heap; on any failure after allocation, roll back the
allocated sequence (PG_CATCH path) and leave the heap unchanged.
Returns the assigned sequence on success. There is no comparison of the
row's order_by value against the group maximum anywhere on this path
(xpatch_get_max_version below has no caller). -/
def xpatch_tuple_insert (C : Codec) (cfg : XPatchConfig) (relid : Nat)
    (st : EngineState) (row : LogicalRow) : EngineState × Option Int :=
  let r := xpatch_logical_to_physical C cfg relid st row
  let cache1 := r.1.1
  let new_seq := r.1.2
  match r.2 with
  | .error _ =>
      let cache2 :=
        if 0 < new_seq then (seq_cache_rollback_seq cache1 relid row.group new_seq).1
        else cache1
      ({ st with seq_cache := cache2 }, none)
  | .ok be =>
      ({ rows := st.rows ++ [⟨row.group, new_seq, row.version, be.1.map some, false⟩],
         seq_cache := cache1,
         fifo := fifo_set st.fifo row.group be.2 }, some new_seq)

/-- Run a list of inserts, recording (group, assigned sequence, original
contents) for each successful one. -/
def run_inserts (C : Codec) (cfg : XPatchConfig) (relid : Nat) :
    EngineState → List (Nat × Int × List (List Nat)) → List LogicalRow →
    EngineState × List (Nat × Int × List (List Nat))
  | st, log, [] => (st, log)
  | st, log, row :: rest =>
      match xpatch_tuple_insert C cfg relid st row with
      | (st', some s) => run_inserts C cfg relid st' (log ++ [(row.group, s, row.cols)]) rest
      | (st', none) => run_inserts C cfg relid st' log rest

/-- xpatch_get_max_version (src/xpatch_storage.c): maximum order_by
value over the visible rows of the group, NULL when the group is empty.
Its header comment says it is used to validate that new versions are
strictly increasing, but no caller exists anywhere in the source. -/
def xpatch_get_max_version (rows : List PhysRow) (g : Nat) : Option Int :=
  rows.foldl (fun m r =>
    if !r.deleted && r.group == g then
      match m with
      | none => some r.version
      | some v => if v < r.version then some r.version else some v
    else m) none

/-! Cascade delete (xpatch_tuple_delete, src/xpatch_tam.c). The target
row is named by its physical position (the TID); the sequence of the
target is derived by counting the visible rows of its group in physical
order (pass 1), and pass 2 marks every visible row of the group whose
count position is at least that sequence. Rows whose deleting
transaction committed are skipped by both passes; marks made by pass 2
itself are by the current transaction and do not affect its own
skip checks. Steps 5-7 of the C function (content/FIFO cache
invalidation, seq-cache max update, stats refresh) do not change row
visibility and are outside this per-claim model. -/

/-- Pass 1: walk the heap with a running count of visible rows of group
g; when the target position is reached return its count (its sequence
under the contiguity invariant), or none when the target was skipped. -/
def delete_find_target_seq (g : Nat) (target : Nat) :
    List PhysRow → Nat → Nat → Option Nat
  | [], _, _ => none
  | r :: rest, idx, cnt =>
      if !r.deleted && r.group == g then
        if idx == target then some (cnt + 1)
        else delete_find_target_seq g target rest (idx + 1) (cnt + 1)
      else
        if idx == target then none
        else delete_find_target_seq g target rest (idx + 1) cnt

/-- Pass 2: re-count the visible rows of group g and mark as deleted
every one whose count is at least the target sequence. -/
def delete_cascade_mark (g : Nat) (tseq : Nat) : List PhysRow → Nat → List PhysRow
  | [], _ => []
  | r :: rest, cnt =>
      if !r.deleted && r.group == g then
        (if tseq ≤ cnt + 1 then { r with deleted := true } else r)
          :: delete_cascade_mark g tseq rest (cnt + 1)
      else
        r :: delete_cascade_mark g tseq rest cnt

/-- xpatch_tuple_delete: validate the target, find its sequence by
pass 1, then cascade-mark by pass 2. Returns the new heap and whether
the delete happened (false models TM_Invisible). -/
def xpatch_tuple_delete (rows : List PhysRow) (target : Nat) : List PhysRow × Bool :=
  match rows.get? target with
  | none => (rows, false)
  | some tr =>
      if tr.deleted then (rows, false)
      else
        match delete_find_target_seq tr.group target rows 0 0 with
        | none => (rows, false)
        | some tseq => (delete_cascade_mark tr.group tseq rows 0, true)

/-! The striped content cache, probe-array level (src/xpatch_cache.c).
One stripe's entry array is a list of entries; a key is (relid,
keyrest) where keyrest stands for the (group hash, seq, attnum) rest of
XPatchCacheKey, and the caller supplies the key's probe start hash. -/

/-- One entry of a stripe's open-addressed array. -/
structure HCacheEntry where
  relid : Nat
  keyrest : Nat
  in_use : Bool
  tombstone : Bool
deriving Repr, DecidableEq

/-- The linear-probe loop of find_entry: an empty position (neither in
use nor a tombstone) ends the search, a tombstone is skipped, a key
match returns the index; at most max_entries probes. -/
def probe_find (entries : List HCacheEntry) (relid keyrest hash : Nat) :
    Nat → Nat → Option Nat
  | 0, _ => none
  | probesLeft + 1, probes =>
      let idx := (hash + probes) % entries.length
      match entries.get? idx with
      | none => none
      | some e =>
          if !e.in_use && !e.tombstone then none
          else if e.tombstone then probe_find entries relid keyrest hash probesLeft (probes + 1)
          else if e.relid == relid && e.keyrest == keyrest then some idx
          else probe_find entries relid keyrest hash probesLeft (probes + 1)

/-- find_entry (src/xpatch_cache.c): probe from the key's hash
position. -/
def find_entry (entries : List HCacheEntry) (hash relid keyrest : Nat) : Option Nat :=
  probe_find entries relid keyrest hash entries.length 0

/-- The flag effect of evict_lru_entry on its victim: cleared but
marked as a tombstone so probing continues past it. -/
def evict_lru_entry (entries : List HCacheEntry) (victim : Nat) : List HCacheEntry :=
  match entries.get? victim with
  | none => entries
  | some e => entries.set victim { e with in_use := false, tombstone := true }

/-- xpatch_cache_invalidate_rel (src/xpatch_cache.c): clear every in-use
entry of the relation. The C code resets in_use, slot_index,
content_size and num_slots but, unlike evict_lru_entry, never sets
tombstone, so the position becomes empty rather than a tombstone. -/
def xpatch_cache_invalidate_rel (entries : List HCacheEntry) (relid : Nat) :
    List HCacheEntry :=
  entries.map (fun e =>
    if e.in_use && e.relid == relid then { e with in_use := false } else e)

/-! The striped content cache, keyed-value level (src/xpatch_cache.c
xpatch_cache_put / xpatch_cache_get): entries keyed by the full cache
key (abstracted to a Nat), least recently used first, bounded by the
stripe's content slots. -/

/-- One stripe's value-level state. -/
structure ContentCacheState where
  entries : List (Nat × List Nat)
  skip_count : Nat
  total_slots : Nat
  avail : Bool
deriving Repr, DecidableEq

/-- VARSIZE of a bytea: payload plus the 4-byte varlena header; the
size-limit check of xpatch_cache_put compares this value. -/
def cache_varsize (content : List Nat) : Nat := 4 + content.length

/-- Slots needed for a content: ceil(size / slot_data_size). -/
def cache_slots_needed (slot_data_size sz : Nat) : Nat :=
  (sz + slot_data_size - 1) / slot_data_size

/-- Slots consumed by the current entries. -/
def cache_used_slots (slot_data_size : Nat) (es : List (Nat × List Nat)) : Nat :=
  es.foldl (fun a e => a + cache_slots_needed slot_data_size (cache_varsize e.2)) 0

/-- The eviction loop of xpatch_cache_put: evict from the LRU end (the
head of the least-recently-used-first list) until the needed slots fit
or the stripe is empty. -/
def cache_evict_for_space (slot_data_size total needed : Nat) :
    List (Nat × List Nat) → List (Nat × List Nat)
  | [] => []
  | e :: rest =>
      if cache_used_slots slot_data_size (e :: rest) + needed ≤ total then e :: rest
      else cache_evict_for_space slot_data_size total needed rest

/-- xpatch_cache_get: on an available stripe return a copy of the
content stored under the key (the LRU touch does not change the keyed
view). -/
def xpatch_cache_get (st : ContentCacheState) (k : Nat) : Option (List Nat) :=
  if !st.avail then none
  else (st.entries.find? (fun e => e.1 == k)).map (·.2)

/-- xpatch_cache_put: nothing happens on an unavailable stripe; an
over-limit content only bumps the skip counter (WARNING once, no
error); an already-cached key is only LRU-touched; otherwise evict for
space and store, or give up silently when space cannot be made. -/
def xpatch_cache_put (max_entry_bytes slot_data_size : Nat) (st : ContentCacheState)
    (k : Nat) (content : List Nat) : ContentCacheState :=
  if !st.avail then st
  else if max_entry_bytes < cache_varsize content then
    { st with skip_count := st.skip_count + 1 }
  else if st.entries.any (fun e => e.1 == k) then
    { st with entries := st.entries.filter (fun e => e.1 != k)
        ++ st.entries.filter (fun e => e.1 == k) }
  else
    let needed := cache_slots_needed slot_data_size (cache_varsize content)
    let es' := cache_evict_for_space slot_data_size st.total_slots needed st.entries
    if cache_used_slots slot_data_size es' + needed ≤ st.total_slots then
      { st with entries := es' ++ [(k, content)] }
    else st

/-- XPATCH_DEFAULT_MAX_ENTRY_KB * 1024: the default per-entry size
limit of the content cache in bytes. -/
def xpatch_default_max_entry_bytes : Nat := 256 * 1024

/-! The _xp_seq column check of xpatch_parse_reloptions
(src/xpatch_config.c) and the int32 datum conversion used throughout
the sequence paths (DatumGetInt32 / Int32GetDatum). -/

/-- The column types relevant to the _xp_seq check. -/
inductive PgType where
  | int2 : PgType
  | int4 : PgType
  | int8 : PgType
  | text : PgType
deriving Repr, DecidableEq

/-- xpatch_parse_reloptions: a table's _xp_seq column must be INT
(int4); any other type raises ERRCODE_DATATYPE_MISMATCH. -/
def xpatch_check_xp_seq_type (t : PgType) : Except Unit Unit :=
  if t = PgType.int4 then .ok () else .error ()

/-- DatumGetInt32: reduction of a stored value to signed 32-bit. -/
def datumGetInt32 (v : Int) : Int := (v + 2 ^ 31) % 2 ^ 32 - 2 ^ 31

/-- The visible rows of a group in physical order: exactly the rows
both scan passes of the cascade delete count. -/
def visible_group_rows (rows : List PhysRow) (g : Nat) : List PhysRow :=
  rows.filter (fun r => !r.deleted && r.group == g)

/-- The consecutive run a, a+1, ..., a+n-1; the per-group sequence
invariant says the visible sequences of a group form seq_run_from 1 n. -/
def seq_run_from (a : Int) : Nat → List Int
  | 0 => []
  | n + 1 => a :: seq_run_from (a + 1) n

/-- A codec whose encoder always refuses and whose decode and tag
extraction always fail; used to exercise the failure branches. -/
def failCodec : Codec where
  encode := fun _ _ _ _ => none
  decode := fun _ _ => .error ()
  tag_of := fun _ => .error ()

/-- The engine invariant tying a reachable state to the log of
successful inserts: the sequence cache is attached and agrees with the
scanned per-group maximum wherever it holds an entry; rows are visible
with positive sequences; every logged insert reconstructs byte-for-byte
to its original contents; the visible sequences of every group are
exactly 1..max (no gaps survive, thanks to rollback); and every
committed FIFO entry holds reconstructible content for a sequence at or
below the group maximum. -/
def EngineInv (C : Codec) (cfg : XPatchConfig) (relid : Nat) (st : EngineState)
    (log : List (Nat × Int × List (List Nat))) : Prop :=
  st.seq_cache ≠ none ∧
  (∀ g v, seq_cache_get_max_seq st.seq_cache relid g = some v →
      v = xpatch_scan_max_seq st.rows g) ∧
  (∀ r ∈ st.rows, r.deleted = false ∧ 1 ≤ r.seq) ∧
  (∀ e ∈ log, 1 ≤ e.2.1 ∧ e.2.1 ≤ xpatch_scan_max_seq st.rows e.1 ∧
      e.2.2.length = cfg.num_delta_columns ∧
      ∀ c, c < cfg.num_delta_columns →
        xpatch_reconstruct C st.rows e.1 e.2.1 c = .ok (some (e.2.2.getD c []))) ∧
  (∀ g s, 1 ≤ s → s ≤ xpatch_scan_max_seq st.rows g → ∃ cs, (g, s, cs) ∈ log) ∧
  (∀ g es, fifo_lookup st.fifo g = some es → ∀ e ∈ es,
      1 ≤ e.seq ∧ e.seq ≤ xpatch_scan_max_seq st.rows g ∧
      ∀ c d, e.cols.getD c none = some d →
        xpatch_reconstruct C st.rows g e.seq c = .ok (some d))

/-- The scenario invariant of the keyframe-schedule property: after k
successful inserts into an initially empty group g, the engine invariant
holds, the visible sequences are exactly 1..k in physical order, every
stored blob's tag is 0 exactly on the keyframe schedule
(s = 1 or s mod keyframe_every = 1), and the FIFO slot's most recent
committed entry is the previous insert with non-empty per-column
content. -/
def C5Inv (C : Codec) (cfg : XPatchConfig) (relid g : Nat) (k : Nat)
    (st : EngineState) (log : List (Nat × Int × List (List Nat))) : Prop :=
  EngineInv C cfg relid st log ∧
  st.rows.map PhysRow.seq = seq_run_from 1 k ∧
  (∀ r ∈ st.rows, r.group = g) ∧
  xpatch_scan_max_seq st.rows g = (k : Int) ∧
  (∀ r ∈ st.rows, ∀ c, c < cfg.num_delta_columns →
    ∃ blob, r.blobs.getD c none = some blob ∧
      ((r.seq = 1 ∨ r.seq % (cfg.keyframe_every : Int) = 1) → C.tag_of blob = .ok 0) ∧
      (¬(r.seq = 1 ∨ r.seq % (cfg.keyframe_every : Int) = 1) →
        ∃ t : Nat, 1 ≤ t ∧ C.tag_of blob = .ok t)) ∧
  (0 < k → ∃ e es', fifo_lookup st.fifo g = some (e :: es') ∧ e.seq = (k : Int) ∧
    (∀ c, c < cfg.num_delta_columns → ∃ d, e.cols.getD c none = some d ∧ d ≠ []))

/-! Supporting lemmas: the witness codec, and the association-list view
of the group sequence cache. -/

lemma trivialCodec_contract : trivialCodec.Contract := by
  intro t b x z blob h
  simp only [trivialCodec, Option.some.injEq] at h
  subst h
  exact ⟨rfl, rfl⟩

lemma trivialCodec_encode_total : trivialCodec.EncodeTotal := by
  intro t b x z
  exact ⟨t :: x, rfl, by simp⟩

lemma gsc_match_of_eq {relid g : Nat} {e : GroupSeqEntry}
    (h : gsc_match relid g e = true) : e.relid = relid ∧ e.group = g := by
  simp only [gsc_match, Bool.and_eq_true, beq_iff_eq] at h
  exact h

lemma seq_cache_find_update (es : List GroupSeqEntry) (relid g relid' g' : Nat)
    (w : Int → Int) :
    (es.map (fun e => if gsc_match relid g e then { e with max_seq := w e.max_seq } else e)).find?
        (gsc_match relid' g')
      = (es.find? (gsc_match relid' g')).map
          (fun e => if gsc_match relid g e then { e with max_seq := w e.max_seq } else e) := by
  rw [List.find?_map]
  have h : (gsc_match relid' g' ∘
      fun e => if gsc_match relid g e then { e with max_seq := w e.max_seq } else e)
        = gsc_match relid' g' := by
    funext e
    by_cases hm : gsc_match relid g e = true
    · rw [Function.comp_apply, if_pos hm]
      simp [gsc_match]
    · rw [Function.comp_apply, if_neg hm]
  rw [h]

/-- C4: for a cached per-group max-sequence entry holding value v,
rollback_seq decrements it to v - 1 and returns true exactly when
v equals the expected value; when the value differs, the entry is
absent, or the cache is unavailable, the state is unchanged and false
is returned; entries under other (table, group) keys are never
affected. -/
theorem C4_rollback_seq_contract (st : GroupSeqCache) (relid g : Nat) (expected : Int) :
    (seq_cache_get_max_seq st relid g = some expected →
        (seq_cache_rollback_seq st relid g expected).2 = true ∧
        seq_cache_get_max_seq (seq_cache_rollback_seq st relid g expected).1 relid g
          = some (expected - 1)) ∧
    (seq_cache_get_max_seq st relid g ≠ some expected →
        (seq_cache_rollback_seq st relid g expected).2 = false ∧
        (seq_cache_rollback_seq st relid g expected).1 = st) ∧
    (∀ relid' g', (relid' ≠ relid ∨ g' ≠ g) →
        seq_cache_get_max_seq (seq_cache_rollback_seq st relid g expected).1 relid' g'
          = seq_cache_get_max_seq st relid' g') := by
  cases st with
  | none => simp [seq_cache_rollback_seq, seq_cache_get_max_seq]
  | some es =>
    cases hf : es.find? (gsc_match relid g) with
    | none =>
      simp [seq_cache_rollback_seq, seq_cache_get_max_seq, hf]
    | some e =>
      have hm : gsc_match relid g e = true := List.find?_some hf
      by_cases he : e.max_seq = expected
      · have hroll : seq_cache_rollback_seq (some es) relid g expected
            = (some (es.map (fun e' =>
                if gsc_match relid g e' then { e' with max_seq := e'.max_seq - 1 } else e')),
               true) := by
          simp [seq_cache_rollback_seq, hf, he]
        refine ⟨fun _ => ?_, fun hne => ?_, fun relid' g' hk => ?_⟩
        · refine ⟨by rw [hroll], ?_⟩
          rw [hroll]
          simp only [seq_cache_get_max_seq]
          rw [seq_cache_find_update es relid g relid g (fun m => m - 1), hf]
          simp [hm, he]
        · exact absurd (by simp [seq_cache_get_max_seq, hf, he]) hne
        · rw [hroll]
          simp only [seq_cache_get_max_seq]
          rw [seq_cache_find_update es relid g relid' g' (fun m => m - 1)]
          cases hf' : es.find? (gsc_match relid' g') with
          | none => simp
          | some e' =>
            have hm' := gsc_match_of_eq (List.find?_some hf')
            have hne' : gsc_match relid g e' = false := by
              rcases hk with hk | hk <;> simp [gsc_match, hm'.1, hm'.2, hk]
            simp [hne']
      · have hb : (e.max_seq == expected) = false := by simpa using he
        have hroll : seq_cache_rollback_seq (some es) relid g expected = (some es, false) := by
          simp [seq_cache_rollback_seq, hf, hb]
        refine ⟨fun hg => ?_, fun _ => ?_, fun relid' g' _ => ?_⟩
        · exact absurd (by simpa [seq_cache_get_max_seq, hf] using hg) he
        · exact ⟨by rw [hroll], by rw [hroll]⟩
        · rw [hroll]

/-- Witness for C4: a one-entry cache at the expected value 5 rolls
back to 4 and reports success. -/
theorem C4_rollback_seq_contract_witness :
    (seq_cache_rollback_seq (some [⟨1, 2, 5⟩]) 1 2 5).2 = true ∧
    seq_cache_get_max_seq (seq_cache_rollback_seq (some [⟨1, 2, 5⟩]) 1 2 5).1 1 2
      = some (5 - 1) :=
  (C4_rollback_seq_contract (some [⟨1, 2, 5⟩]) 1 2 5).1 rfl

/-- C10 (code bug): the sequential-scan fallback of
xpatch_fetch_tuple_by_seq matches only group and _xp_seq with no
visibility check, so in a state where the only physical row at
(group, seq) is committed-deleted — no visible row exists — column
reconstruction returns the deleted row's stale content instead of the
NULL-after-WARNING degradation the claim describes. -/
theorem C10_stale_deleted_row_returned :
    (∀ r ∈ [(⟨7, 1, 10, [some [0, 5]], true⟩ : PhysRow)], r.deleted = true) ∧
    xpatch_reconstruct trivialCodec [⟨7, 1, 10, [some [0, 5]], true⟩] 7 1 0
      = .ok (some [5]) :=
  ⟨by decide, rfl⟩

/-- C6 counterexample: the _xp_seq column is not a signed 64-bit
column — an int8 _xp_seq is rejected with a datatype mismatch — and
the int32 datum path cannot represent 2^31, a value well below
2^63 - 1. -/
theorem C6_counterexample :
    xpatch_check_xp_seq_type PgType.int8 = .error () ∧
    datumGetInt32 (2 ^ 31) ≠ 2 ^ 31 ∧ ((2 ^ 31 : Int) ≤ 2 ^ 63 - 1) := by
  refine ⟨rfl, ?_, by norm_num⟩
  unfold datumGetInt32
  decide

/-- C6 amended: the dedicated per-group sequence column must be a
signed 32-bit integer (INT4; every other type, 64-bit included, is
rejected at configuration parsing), and exactly the values within the
signed 32-bit range pass unchanged through the datum conversion, so
sequences up to 2^31 - 1 are representable. -/
theorem C6_amended_int4_seq_column (t : PgType) (v : Int)
    (h1 : -(2 ^ 31) ≤ v) (h2 : v < 2 ^ 31) :
    (xpatch_check_xp_seq_type t = .ok () ↔ t = PgType.int4) ∧ datumGetInt32 v = v := by
  constructor
  · cases t <;> simp [xpatch_check_xp_seq_type]
  · unfold datumGetInt32
    have e1 : (2 : Int) ^ 31 = 2147483648 := by norm_num
    have e2 : (2 : Int) ^ 32 = 4294967296 := by norm_num
    rw [e1] at h1 h2 ⊢
    rw [e2]
    omega

/-- Witness for the amended C6 at INT4 and the largest representable
sequence value. -/
theorem C6_amended_int4_seq_column_witness :
    (xpatch_check_xp_seq_type PgType.int4 = .ok () ↔ PgType.int4 = PgType.int4) ∧
    datumGetInt32 (2 ^ 31 - 1) = 2 ^ 31 - 1 :=
  C6_amended_int4_seq_column PgType.int4 (2 ^ 31 - 1) (by norm_num) (by norm_num)

/-- C7 (code bug): on a stripe where the keys of relations 1 and 2 both
probe from position 0, the entry of relation 2 sits one past that of
relation 1 and is found; invalidating relation 1 clears its entry
without writing a tombstone, so the probe for relation 2 stops at the
now-empty position and misses its still-present entry — while the
tombstone written by the eviction path keeps the chain intact. -/
theorem C7_invalidate_breaks_probe_chain :
    find_entry [⟨1, 0, true, false⟩, ⟨2, 0, true, false⟩] 0 2 0 = some 1 ∧
    (xpatch_cache_invalidate_rel [⟨1, 0, true, false⟩, ⟨2, 0, true, false⟩] 1).get? 1
      = some ⟨2, 0, true, false⟩ ∧
    find_entry (xpatch_cache_invalidate_rel [⟨1, 0, true, false⟩, ⟨2, 0, true, false⟩] 1)
      0 2 0 = none ∧
    find_entry (evict_lru_entry [⟨1, 0, true, false⟩, ⟨2, 0, true, false⟩] 0) 0 2 0
      = some 1 := by
  decide

/-- C3 (code bug): after inserting a row with order_by value 5, the
group's maximum version is 5, yet inserting another row with the same
order_by value 5 succeeds and is assigned sequence 2 — no
VersionNotIncreasing rejection exists anywhere on the insert path. -/
theorem C3_no_version_check :
    xpatch_get_max_version (run_inserts trivialCodec ⟨10, 2, 1, false⟩ 7 init_state []
        [⟨0, 5, [[1]]⟩]).1.rows 0 = some 5 ∧
    (xpatch_tuple_insert trivialCodec ⟨10, 2, 1, false⟩ 7
        (run_inserts trivialCodec ⟨10, 2, 1, false⟩ 7 init_state [] [⟨0, 5, [[1]]⟩]).1
        ⟨0, 5, [[2]]⟩).2 = some 2 ∧
    (xpatch_tuple_insert trivialCodec ⟨10, 2, 1, false⟩ 7
        (run_inserts trivialCodec ⟨10, 2, 1, false⟩ 7 init_state [] [⟨0, 5, [[1]]⟩]).1
        ⟨0, 5, [[2]]⟩).1.rows.length = 2 := by
  decide

lemma cache_evict_for_space_subset (sd total needed : Nat) :
    ∀ es : List (Nat × List Nat), ∀ e ∈ cache_evict_for_space sd total needed es, e ∈ es := by
  intro es
  induction es with
  | nil => intro e he; simp [cache_evict_for_space] at he
  | cons a rest ih =>
    intro e he
    by_cases h : cache_used_slots sd (a :: rest) + needed ≤ total
    · simpa [cache_evict_for_space, h] using he
    · exact List.mem_cons_of_mem a (ih e (by simpa [cache_evict_for_space, h] using he))

/-- C9: a put whose content exceeds the per-entry limit (default
256 KiB) leaves the cache unchanged apart from the skip counter and
raises no error; consequently every entry stored stays within the
bound, and get only ever returns content within it. -/
theorem C9_cache_entry_size_limit (B sd : Nat) (st : ContentCacheState) (k : Nat)
    (content : List Nat) (hB : ∀ e ∈ st.entries, cache_varsize e.2 ≤ B) :
    (st.avail = true → B < cache_varsize content →
        xpatch_cache_put B sd st k content = { st with skip_count := st.skip_count + 1 }) ∧
    (∀ e ∈ (xpatch_cache_put B sd st k content).entries, cache_varsize e.2 ≤ B) ∧
    (∀ v, xpatch_cache_get st k = some v → cache_varsize v ≤ B) := by
  refine ⟨fun hav hover => ?_, fun e he => ?_, fun v hv => ?_⟩
  · simp [xpatch_cache_put, hav, hover]
  · by_cases hav : st.avail = true
    · by_cases hover : B < cache_varsize content
      · rw [show xpatch_cache_put B sd st k content
              = { st with skip_count := st.skip_count + 1 } from by
            simp [xpatch_cache_put, hav, hover]] at he
        exact hB e he
      · by_cases hpres : st.entries.any (fun e' => e'.1 == k)
        · have he' : e ∈ st.entries.filter (fun e' => e'.1 != k)
              ++ st.entries.filter (fun e' => e'.1 == k) := by
            simpa [xpatch_cache_put, hav, hover, hpres] using he
          rcases List.mem_append.mp he' with h | h
          · exact hB e (List.mem_of_mem_filter h)
          · exact hB e (List.mem_of_mem_filter h)
        · by_cases hfit : cache_used_slots sd
              (cache_evict_for_space sd st.total_slots
                (cache_slots_needed sd (cache_varsize content)) st.entries)
              + cache_slots_needed sd (cache_varsize content) ≤ st.total_slots
          · have he' : e ∈ cache_evict_for_space sd st.total_slots
                (cache_slots_needed sd (cache_varsize content)) st.entries
                ++ [(k, content)] := by
              simpa [xpatch_cache_put, hav, hover, hpres, hfit] using he
            rcases List.mem_append.mp he' with h | h
            · exact hB e (cache_evict_for_space_subset _ _ _ _ e h)
            · have heq : e = (k, content) := by simpa using h
              subst heq
              exact Nat.le_of_not_lt hover
          · rw [show xpatch_cache_put B sd st k content = st from by
                simp [xpatch_cache_put, hav, hover, hpres, hfit]] at he
            exact hB e he
    · rw [show xpatch_cache_put B sd st k content = st from by
          simp [xpatch_cache_put, hav]] at he
      exact hB e he
  · by_cases hav : st.avail = true
    · have hv' : (st.entries.find? (fun e => e.1 == k)).map (·.2) = some v := by
        simpa [xpatch_cache_get, hav] using hv
      cases hf : st.entries.find? (fun e => e.1 == k) with
      | none => rw [hf] at hv'; simp at hv'
      | some e =>
          rw [hf] at hv'
          have hev : e.2 = v := by simpa using hv'
          rw [← hev]
          exact hB e (List.mem_of_find?_eq_some hf)
    · simp [xpatch_cache_get, hav] at hv

/-- Witness for C9: a 7-byte content (VARSIZE 11) exceeds the bound 10
and only bumps the skip counter of a one-entry cache. -/
theorem C9_cache_entry_size_limit_witness :
    xpatch_cache_put 10 4 ⟨[(1, [5, 5])], 0, 8, true⟩ 2 [9, 9, 9, 9, 9, 9, 9]
      = { entries := [(1, [5, 5])], skip_count := 1, total_slots := 8, avail := true } := by
  have h := C9_cache_entry_size_limit 10 4 ⟨[(1, [5, 5])], 0, 8, true⟩ 2
    [9, 9, 9, 9, 9, 9, 9]
    (by intro e he
        simp only [List.mem_singleton] at he
        subst he
        decide)
  exact h.1 rfl (by decide)

lemma pick_smallest_warm_none : ∀ l : List (Nat × Option (List Nat)),
    (∀ p ∈ l, ∀ d, p.2 = some d → d = []) → pick_smallest_warm l = none := by
  intro l
  induction l with
  | nil => intro _; rfl
  | cons r l ih =>
    intro h
    obtain ⟨t, o⟩ := r
    cases o with
    | none =>
        show pick_smallest_warm l = none
        exact ih (fun p hp => h p (List.mem_cons_of_mem _ hp))
    | some d =>
        have hd : d = [] := h (t, some d) (List.mem_cons_self _ l) d rfl
        subst hd
        show pick_smallest_warm l = none
        exact ih (fun p hp => h p (List.mem_cons_of_mem _ hp))

lemma pick_smallest_cold_none : ∀ l : List (Nat × Option (List Nat)),
    (∀ p ∈ l, p.2 = none) → pick_smallest_cold l = none := by
  intro l
  induction l with
  | nil => intro _; rfl
  | cons r l ih =>
    intro h
    obtain ⟨t, o⟩ := r
    have ho : o = none := h (t, o) (List.mem_cons_self _ l)
    subst ho
    show pick_smallest_cold l = none
    exact ih (fun p hp => h p (List.mem_cons_of_mem _ hp))

/-- C8: when no delta candidate encoding succeeds — the FIFO bases
yield no valid (non-empty) result and the sequential
reconstruction-then-encode candidates for tags 1..D also yield none —
the column falls back to keyframe encoding with tag 0, and the
statement fails with ERRCODE_INTERNAL_ERROR exactly when that keyframe
fallback encoding also fails. -/
theorem C8_keyframe_fallback (C : Codec) (rows : List PhysRow) (g : Nat)
    (entries : List FifoEntry) (depth : Nat) (new_seq : Int) (c : Nat)
    (x : List Nat) (z : Bool) (cands : List (Nat × Option (List Nat)))
    (hwarm : ∀ p ∈ insert_cache_get_bases entries depth new_seq c,
        ∀ d, C.encode p.1 p.2 x z = some d → d = [])
    (hcands : cold_candidates C rows g depth new_seq c x z = .ok cands)
    (hcold : ∀ p ∈ cands, p.2 = none) :
    encode_delta_column C rows g entries depth new_seq c x z
      = encode_keyframe_column C x z ∧
    (encode_delta_column C rows g entries depth new_seq c x z = .error .internal ↔
      C.encode 0 [] x z = none) := by
  have hch : delta_candidate_choice C rows g entries depth new_seq c x z
      = .ok none := by
    unfold delta_candidate_choice
    by_cases hb : 0 < (insert_cache_get_bases entries depth new_seq c).length
    · have hnone : pick_smallest_warm
          ((insert_cache_get_bases entries depth new_seq c).map
            (fun p => (p.1, C.encode p.1 p.2 x z))) = none := by
        apply pick_smallest_warm_none
        intro p hp d hd
        rcases List.mem_map.mp hp with ⟨q, hq, hqe⟩
        subst hqe
        exact hwarm q hq d hd
      rw [if_pos hb, hnone]
    · have hnone : pick_smallest_cold cands = none := pick_smallest_cold_none cands hcold
      rw [if_neg hb]
      simp only [hcands]
      rw [hnone]
  have hmain : encode_delta_column C rows g entries depth new_seq c x z
      = encode_keyframe_column C x z := by
    unfold encode_delta_column
    rw [hch]
    rfl
  refine ⟨hmain, ?_⟩
  rw [hmain]
  unfold encode_keyframe_column
  cases hk : C.encode 0 [] x z <;> simp [hk]

/-- Witness for C8 with the always-refusing codec: both candidate
sources are empty, the keyframe fallback is reached, and the internal
error appears exactly because the keyframe encode also fails. -/
theorem C8_keyframe_fallback_witness :
    encode_delta_column failCodec [] 0 [] 1 2 0 [7] false
      = encode_keyframe_column failCodec [7] false ∧
    (encode_delta_column failCodec [] 0 [] 1 2 0 [7] false = .error .internal ↔
      failCodec.encode 0 [] [7] false = none) := by
  refine C8_keyframe_fallback failCodec [] 0 [] 1 2 0 [7] false [] ?_ rfl ?_
  · intro p hp
    simp [insert_cache_get_bases, List.insertionSort] at hp
  · intro p hp
    simp at hp

lemma delete_find_target_seq_aux (g : Nat) :
    ∀ (l : List PhysRow) (idx cnt k : Nat) (tr : PhysRow),
      l.get? k = some tr → tr.deleted = false → tr.group = g →
      (visible_group_rows l g).map (·.seq)
        = seq_run_from ((cnt : Int) + 1) ((visible_group_rows l g).length) →
      ∃ s, delete_find_target_seq g (idx + k) l idx cnt = some s ∧ (s : Int) = tr.seq := by
  intro l
  induction l with
  | nil => intro idx cnt k tr hk; simp at hk
  | cons r rest ih =>
    intro idx cnt k tr hk hdel hgrp hseqs
    by_cases hvr : (!r.deleted && r.group == g) = true
    · have hv : visible_group_rows (r :: rest) g = r :: visible_group_rows rest g := by
        simp [visible_group_rows, List.filter_cons, hvr]
      rw [hv] at hseqs
      simp only [List.map_cons, List.length_cons, seq_run_from, List.cons.injEq] at hseqs
      cases k with
      | zero =>
          have htr : r = tr := by simpa using hk
          subst htr
          refine ⟨cnt + 1, ?_, ?_⟩
          · unfold delete_find_target_seq
            rw [if_pos hvr, if_pos (by simp)]
          · rw [hseqs.1]; omega
      | succ k' =>
          have hk' : rest.get? k' = some tr := by simpa using hk
          have hne : (idx == idx + (k' + 1)) = false := by
            simp only [beq_eq_false_iff_ne]; omega
          have hrec := ih (idx + 1) (cnt + 1) k' tr hk' hdel hgrp
            (by rw [show (((cnt + 1 : Nat) : Int)) + 1 = ((cnt : Int) + 1) + 1 from by
                  push_cast; ring]
                exact hseqs.2)
          unfold delete_find_target_seq
          rw [if_pos hvr, if_neg (by simp [hne])]
          have harg : idx + 1 + k' = idx + (k' + 1) := by omega
          rw [← harg]
          exact hrec
    · have hv : visible_group_rows (r :: rest) g = visible_group_rows rest g := by
        simp only [visible_group_rows, List.filter_cons]
        rw [if_neg (by simpa using hvr)]
      rw [hv] at hseqs
      cases k with
      | zero =>
          have htr : r = tr := by simpa using hk
          subst htr
          exact absurd (by simp [hdel, hgrp]) hvr
      | succ k' =>
          have hk' : rest.get? k' = some tr := by simpa using hk
          have hne : (idx == idx + (k' + 1)) = false := by
            simp only [beq_eq_false_iff_ne]; omega
          have hrec := ih (idx + 1) cnt k' tr hk' hdel hgrp hseqs
          unfold delete_find_target_seq
          rw [if_neg (by simpa using hvr), if_neg (by simp [hne])]
          have harg : idx + 1 + k' = idx + (k' + 1) := by omega
          rw [← harg]
          exact hrec

lemma delete_cascade_mark_aux (g : Nat) (tseq : Nat) :
    ∀ (l : List PhysRow) (cnt : Nat),
      (visible_group_rows l g).map (·.seq)
        = seq_run_from ((cnt : Int) + 1) ((visible_group_rows l g).length) →
      delete_cascade_mark g tseq l cnt
        = l.map (fun r =>
            if !r.deleted && r.group == g && decide ((tseq : Int) ≤ r.seq) then
              { r with deleted := true } else r) := by
  intro l
  induction l with
  | nil => intro cnt _; rfl
  | cons r rest ih =>
    intro cnt hseqs
    by_cases hvr : (!r.deleted && r.group == g) = true
    · have hv : visible_group_rows (r :: rest) g = r :: visible_group_rows rest g := by
        simp [visible_group_rows, List.filter_cons, hvr]
      rw [hv] at hseqs
      simp only [List.map_cons, List.length_cons, seq_run_from, List.cons.injEq] at hseqs
      have hrec := ih (cnt + 1) (by rw [hseqs.2]; push_cast; ring_nf)
      have hcond : (tseq ≤ cnt + 1) ↔ ((tseq : Int) ≤ r.seq) := by
        rw [hseqs.1]; constructor <;> intro h <;> [push_cast; skip] <;> omega
      unfold delete_cascade_mark
      rw [if_pos hvr, List.map_cons, hrec]
      by_cases hm : tseq ≤ cnt + 1
      · rw [if_pos hm, if_pos (by simp [hvr, decide_eq_true (hcond.mp hm)])]
      · rw [if_neg hm, if_neg ?_]
        simp only [Bool.and_eq_true, decide_eq_true_eq]
        intro hc
        exact hm (hcond.mpr hc.2)
    · have hv : visible_group_rows (r :: rest) g = visible_group_rows rest g := by
        simp only [visible_group_rows, List.filter_cons]
        rw [if_neg (by simpa using hvr)]
      rw [hv] at hseqs
      have hrec := ih cnt hseqs
      unfold delete_cascade_mark
      rw [if_neg (by simpa using hvr), List.map_cons, hrec, if_neg ?_]
      simp only [Bool.and_eq_true, decide_eq_true_eq]
      intro hc
      exact absurd (by simp [hc.1.1, hc.1.2]) hvr

/-- C2: deleting the visible row at sequence s of group g marks as
deleted exactly the rows of g whose sequence is at least s; rows of g
below s and rows of every other group are left untouched. The
hypothesis is the engine's per-group invariant that the visible
sequences of the target's group form the contiguous run 1..n in
physical order. -/
theorem C2_cascade_delete_exact (rows : List PhysRow) (target : Nat) (tr : PhysRow)
    (htr : rows.get? target = some tr) (hvis : tr.deleted = false)
    (hseqs : (visible_group_rows rows tr.group).map (·.seq)
      = seq_run_from 1 ((visible_group_rows rows tr.group).length)) :
    xpatch_tuple_delete rows target
      = (rows.map (fun r =>
          if !r.deleted && r.group == tr.group && decide (tr.seq ≤ r.seq) then
            { r with deleted := true } else r), true) := by
  have hseqs0 : (visible_group_rows rows tr.group).map (·.seq)
      = seq_run_from (((0 : Nat) : Int) + 1) ((visible_group_rows rows tr.group).length) := by
    simpa using hseqs
  obtain ⟨s, hfind, hs⟩ :=
    delete_find_target_seq_aux tr.group rows 0 0 target tr htr hvis rfl hseqs0
  have hmark := delete_cascade_mark_aux tr.group s rows 0 hseqs0
  rw [hs] at hmark
  unfold xpatch_tuple_delete
  rw [htr]
  simp only [hvis]
  rw [show (0 : Nat) + target = target from by omega] at hfind
  rw [hfind]
  show (delete_cascade_mark tr.group s rows 0, true) = _
  rw [hmark]

/-- Witness for C2: deleting the row at sequence 3 of a five-row group
marks exactly sequences 3, 4, 5 as deleted. -/
theorem C2_cascade_delete_exact_witness :
    xpatch_tuple_delete
        [⟨0, 1, 0, [], false⟩, ⟨0, 2, 0, [], false⟩, ⟨0, 3, 0, [], false⟩,
         ⟨0, 4, 0, [], false⟩, ⟨0, 5, 0, [], false⟩] 2
      = ([⟨0, 1, 0, [], false⟩, ⟨0, 2, 0, [], false⟩, ⟨0, 3, 0, [], true⟩,
          ⟨0, 4, 0, [], true⟩, ⟨0, 5, 0, [], true⟩], true) := by
  have h := C2_cascade_delete_exact
    [⟨0, 1, 0, [], false⟩, ⟨0, 2, 0, [], false⟩, ⟨0, 3, 0, [], false⟩,
     ⟨0, 4, 0, [], false⟩, ⟨0, 5, 0, [], false⟩] 2 ⟨0, 3, 0, [], false⟩
    rfl rfl (by decide)
  rw [h]
  decide

lemma scan_max_step_le (g : Nat) :
    ∀ (l : List PhysRow) (acc : Int),
      acc ≤ l.foldl
        (fun m r => if !r.deleted && r.group == g && m < r.seq then r.seq else m) acc := by
  intro l
  induction l with
  | nil => intro acc; exact le_refl acc
  | cons r rest ih =>
    intro acc
    simp only [List.foldl_cons]
    refine le_trans ?_ (ih _)
    by_cases h : (!r.deleted && r.group == g && decide (acc < r.seq)) = true
    · rw [if_pos h]
      simp only [Bool.and_eq_true, decide_eq_true_eq] at h
      exact le_of_lt h.2
    · rw [if_neg h]

lemma xpatch_scan_max_seq_nonneg (rows : List PhysRow) (g : Nat) :
    0 ≤ xpatch_scan_max_seq rows g := by
  unfold xpatch_scan_max_seq
  exact scan_max_step_le g rows 0

lemma scan_max_mem_le (g : Nat) :
    ∀ (l : List PhysRow) (acc : Int) (r : PhysRow), r ∈ l →
      r.deleted = false → r.group = g →
      r.seq ≤ l.foldl
        (fun m r' => if !r'.deleted && r'.group == g && m < r'.seq then r'.seq else m) acc := by
  intro l
  induction l with
  | nil => intro acc r hr; simp at hr
  | cons a rest ih =>
    intro acc r hr hd hg
    simp only [List.foldl_cons]
    rcases List.mem_cons.mp hr with hra | hra
    · subst hra
      refine le_trans ?_ (scan_max_step_le g rest _)
      by_cases h : (!r.deleted && r.group == g && decide (acc < r.seq)) = true
      · rw [if_pos h]
      · rw [if_neg h]
        simp only [Bool.and_eq_true, decide_eq_true_eq, hd, hg] at h
        have hna : ¬acc < r.seq := fun hlt => h ⟨⟨by simp, by simp⟩, hlt⟩
        omega
    · exact ih _ r hra hd hg

lemma xpatch_scan_max_seq_mem_le (rows : List PhysRow) (g : Nat) (r : PhysRow)
    (hr : r ∈ rows) (hd : r.deleted = false) (hg : r.group = g) :
    r.seq ≤ xpatch_scan_max_seq rows g := by
  unfold xpatch_scan_max_seq
  exact scan_max_mem_le g rows 0 r hr hd hg

lemma xpatch_scan_max_seq_append (rows : List PhysRow) (r : PhysRow) (g : Nat) :
    xpatch_scan_max_seq (rows ++ [r]) g
      = if !r.deleted && r.group == g && decide (xpatch_scan_max_seq rows g < r.seq)
        then r.seq else xpatch_scan_max_seq rows g := by
  unfold xpatch_scan_max_seq
  rw [List.foldl_append]
  rfl

lemma scan_max_append_new (rows : List PhysRow) (r : PhysRow) (g : Nat)
    (hg : r.group = g) (hd : r.deleted = false)
    (hlt : xpatch_scan_max_seq rows g < r.seq) :
    xpatch_scan_max_seq (rows ++ [r]) g = r.seq := by
  rw [xpatch_scan_max_seq_append]
  rw [if_pos (by simp [hg, hd, hlt])]

lemma scan_max_append_other (rows : List PhysRow) (r : PhysRow) (g : Nat)
    (hg : r.group ≠ g) :
    xpatch_scan_max_seq (rows ++ [r]) g = xpatch_scan_max_seq rows g := by
  rw [xpatch_scan_max_seq_append]
  rw [if_neg (by simp [hg])]

lemma fetch_append_not_match (rows : List PhysRow) (r : PhysRow) (g : Nat) (s : Int)
    (hp : (r.group == g && r.seq == s) = false) :
    xpatch_fetch_by_seq (rows ++ [r]) g s = xpatch_fetch_by_seq rows g s := by
  unfold xpatch_fetch_by_seq
  rw [List.find?_append]
  rw [show List.find? (fun r' => r'.group == g && r'.seq == s) [r] = none
    from by simp only [List.find?_cons, hp]; rfl]
  exact Option.or_none

lemma fetch_append_self (rows : List PhysRow) (r : PhysRow)
    (hnone : xpatch_fetch_by_seq rows r.group r.seq = none) :
    xpatch_fetch_by_seq (rows ++ [r]) r.group r.seq = some r := by
  unfold xpatch_fetch_by_seq at hnone ⊢
  rw [List.find?_append, hnone]
  have hp : (r.group == r.group && r.seq == r.seq) = true := by
    simp
  simp only [List.find?_cons, hp]
  rfl

lemma fetch_none_of_gt_max (rows : List PhysRow) (g : Nat) (s : Int)
    (hvis : ∀ r ∈ rows, r.deleted = false)
    (hs : xpatch_scan_max_seq rows g < s) :
    xpatch_fetch_by_seq rows g s = none := by
  unfold xpatch_fetch_by_seq
  rw [List.find?_eq_none]
  intro r hr hp
  simp only [Bool.and_eq_true, beq_iff_eq] at hp
  have := xpatch_scan_max_seq_mem_le rows g r hr (hvis r hr) hp.1
  omega

lemma seq_cache_get_update_self (es : List GroupSeqEntry) (relid g : Nat) (w : Int → Int)
    (e : GroupSeqEntry) (hf : es.find? (gsc_match relid g) = some e) :
    seq_cache_get_max_seq (some (es.map (fun e' =>
        if gsc_match relid g e' then { e' with max_seq := w e'.max_seq } else e'))) relid g
      = some (w e.max_seq) := by
  simp only [seq_cache_get_max_seq]
  rw [seq_cache_find_update es relid g relid g w, hf]
  have hm : gsc_match relid g e = true := List.find?_some hf
  simp [hm]

lemma seq_cache_get_update_other (es : List GroupSeqEntry) (relid g relid' g' : Nat)
    (w : Int → Int) (hk : relid' ≠ relid ∨ g' ≠ g) :
    seq_cache_get_max_seq (some (es.map (fun e' =>
        if gsc_match relid g e' then { e' with max_seq := w e'.max_seq } else e'))) relid' g'
      = seq_cache_get_max_seq (some es) relid' g' := by
  simp only [seq_cache_get_max_seq]
  rw [seq_cache_find_update es relid g relid' g' w]
  cases hf' : es.find? (gsc_match relid' g') with
  | none => simp
  | some e' =>
      have hm' := gsc_match_of_eq (List.find?_some hf')
      have hne' : gsc_match relid g e' = false := by
        rcases hk with hk | hk <;> simp [gsc_match, hm'.1, hm'.2, hk]
      simp [hne']

lemma seq_cache_get_set_self (st : GroupSeqCache) (relid g : Nat) (v : Int)
    (h : st ≠ none) :
    seq_cache_get_max_seq (seq_cache_set_max_seq st relid g v) relid g = some v := by
  cases st with
  | none => exact absurd rfl h
  | some es =>
    by_cases ha : es.any (gsc_match relid g) = true
    · cases hf : es.find? (gsc_match relid g) with
      | none =>
          rw [List.find?_eq_none] at hf
          obtain ⟨e, he, hpe⟩ := List.any_eq_true.mp ha
          exact absurd hpe (hf e he)
      | some e0 =>
          have hres := seq_cache_get_update_self es relid g (fun _ => v) e0 hf
          rw [show seq_cache_set_max_seq (some es) relid g v
              = some (es.map (fun e' =>
                  if gsc_match relid g e' then { e' with max_seq := (fun _ => v) e'.max_seq }
                  else e')) from by simp [seq_cache_set_max_seq, ha]]
          exact hres
    · have hnone : es.find? (gsc_match relid g) = none := by
        rw [List.find?_eq_none]
        intro x hx hpx
        exact ha (List.any_eq_true.mpr ⟨x, hx, hpx⟩)
      rw [show seq_cache_set_max_seq (some es) relid g v = some (es ++ [⟨relid, g, v⟩])
          from by simp [seq_cache_set_max_seq, ha]]
      simp only [seq_cache_get_max_seq]
      rw [List.find?_append, hnone]
      simp [List.find?_cons, gsc_match]

lemma seq_cache_get_set_other (st : GroupSeqCache) (relid g relid' g' : Nat) (v : Int)
    (hk : relid' ≠ relid ∨ g' ≠ g) :
    seq_cache_get_max_seq (seq_cache_set_max_seq st relid g v) relid' g'
      = seq_cache_get_max_seq st relid' g' := by
  cases st with
  | none => rfl
  | some es =>
    by_cases ha : es.any (gsc_match relid g) = true
    · rw [show seq_cache_set_max_seq (some es) relid g v
          = some (es.map (fun e' =>
              if gsc_match relid g e' then { e' with max_seq := (fun _ => v) e'.max_seq }
              else e')) from by simp [seq_cache_set_max_seq, ha]]
      exact seq_cache_get_update_other es relid g relid' g' (fun _ => v) hk
    · rw [show seq_cache_set_max_seq (some es) relid g v = some (es ++ [⟨relid, g, v⟩])
          from by simp [seq_cache_set_max_seq, ha]]
      simp only [seq_cache_get_max_seq]
      rw [List.find?_append]
      rw [show List.find? (gsc_match relid' g') [⟨relid, g, v⟩] = none from by
        simp only [List.find?_cons]
        rw [show gsc_match relid' g' ⟨relid, g, v⟩ = false from by
          rcases hk with hk | hk <;> simp [gsc_match, hk] <;> omega]
        rfl]
      rw [Option.or_none]

lemma seq_cache_set_ne_none (st : GroupSeqCache) (relid g : Nat) (v : Int)
    (h : st ≠ none) : seq_cache_set_max_seq st relid g v ≠ none := by
  cases st with
  | none => exact absurd rfl h
  | some es =>
    simp only [seq_cache_set_max_seq]
    split <;> simp

lemma seq_cache_rollback_spec (st : GroupSeqCache) (relid g : Nat) (expected : Int)
    (h : seq_cache_get_max_seq st relid g = some expected) :
    seq_cache_get_max_seq (seq_cache_rollback_seq st relid g expected).1 relid g
      = some (expected - 1) ∧
    (∀ relid' g', (relid' ≠ relid ∨ g' ≠ g) →
        seq_cache_get_max_seq (seq_cache_rollback_seq st relid g expected).1 relid' g'
          = seq_cache_get_max_seq st relid' g') ∧
    (seq_cache_rollback_seq st relid g expected).1 ≠ none := by
  cases st with
  | none => simp [seq_cache_get_max_seq] at h
  | some es =>
    cases hf : es.find? (gsc_match relid g) with
    | none => simp [seq_cache_get_max_seq, hf] at h
    | some e =>
        have he : e.max_seq = expected := by
          simpa [seq_cache_get_max_seq, hf] using h
        have hroll : (seq_cache_rollback_seq (some es) relid g expected).1
            = some (es.map (fun e' =>
                if gsc_match relid g e' then { e' with max_seq := (fun m => m - 1) e'.max_seq }
                else e')) := by
          simp [seq_cache_rollback_seq, hf, he]
        rw [hroll]
        refine ⟨?_, fun relid' g' hk => ?_, by simp⟩
        · rw [seq_cache_get_update_self es relid g (fun m => m - 1) e hf, he]
        · exact seq_cache_get_update_other es relid g relid' g' (fun m => m - 1) hk

lemma xpatch_reconstruct_from_delta_congr (C : Codec)
    (rec1 rec2 : Int → Except XErr (Option (List Nat))) (s : Int) (blob : List Nat)
    (h : ∀ bs, 1 ≤ bs → bs ≤ s - 1 → rec1 bs = rec2 bs) :
    xpatch_reconstruct_from_delta C rec1 s blob
      = xpatch_reconstruct_from_delta C rec2 s blob := by
  unfold xpatch_reconstruct_from_delta
  rcases htag : C.tag_of blob with e | t
  · simp only [htag]
  · cases t with
    | zero => simp only [htag]
    | succ t' =>
        simp only [htag]
        by_cases hb : s - ((t' : Int) + 1) < 1
        · rw [if_pos hb, if_pos hb]
        · rw [if_neg hb, if_neg hb]
          rw [h _ (by omega) (by omega)]

lemma xpatch_reconstruct_column_append (C : Codec) (rows : List PhysRow) (r : PhysRow)
    (g : Nat) (c : Nat) :
    ∀ (fuel : Nat) (s : Int), (g ≠ r.group ∨ s < r.seq) →
      xpatch_reconstruct_column C (rows ++ [r]) g c fuel s
        = xpatch_reconstruct_column C rows g c fuel s := by
  intro fuel
  induction fuel with
  | zero => intro s _; rfl
  | succ f ih =>
      intro s h
      have hfetch : xpatch_fetch_by_seq (rows ++ [r]) g s = xpatch_fetch_by_seq rows g s := by
        apply fetch_append_not_match
        rcases h with h | h
        · have hgg : (r.group == g) = false := by
            simp only [beq_eq_false_iff_ne]
            exact fun he => h (he ▸ rfl)
          simp [hgg]
        · have hss : (r.seq == s) = false := by
            simp only [beq_eq_false_iff_ne]
            omega
          simp [hss]
      simp only [xpatch_reconstruct_column]
      rw [hfetch]
      cases hf : xpatch_fetch_by_seq rows g s with
      | none => rfl
      | some row =>
          cases hb : row.blobs.getD c none with
          | none => simp only [hb]
          | some blob =>
              have harg : ∀ bs : Int, 1 ≤ bs → bs ≤ s - 1 → (g ≠ r.group ∨ bs < r.seq) := by
                intro bs hb1 hb2
                rcases h with h | h
                · exact Or.inl h
                · exact Or.inr (by omega)
              have hcong := xpatch_reconstruct_from_delta_congr C
                (fun bs => xpatch_reconstruct_column C (rows ++ [r]) g c f bs)
                (fun bs => xpatch_reconstruct_column C rows g c f bs) s blob
                (fun bs hb1 hb2 => ih bs (harg bs hb1 hb2))
              simp only [hb, hcong]

lemma xpatch_reconstruct_column_fuel (C : Codec) (rows : List PhysRow) (g c : Nat) :
    ∀ (f1 f2 : Nat) (s : Int), s.toNat < f1 → s.toNat < f2 →
      xpatch_reconstruct_column C rows g c f1 s = xpatch_reconstruct_column C rows g c f2 s := by
  intro f1
  induction f1 with
  | zero => intro f2 s h1 _; exact absurd h1 (Nat.not_lt_zero _)
  | succ f ih =>
      intro f2 s h1 h2
      cases f2 with
      | zero => exact absurd h2 (Nat.not_lt_zero _)
      | succ f2' =>
          simp only [xpatch_reconstruct_column]
          cases hf : xpatch_fetch_by_seq rows g s with
          | none => rfl
          | some row =>
              cases hb : row.blobs.getD c none with
              | none => simp only [hb]
              | some blob =>
                  have hcong := xpatch_reconstruct_from_delta_congr C
                    (fun bs => xpatch_reconstruct_column C rows g c f bs)
                    (fun bs => xpatch_reconstruct_column C rows g c f2' bs) s blob
                    (fun bs hb1 hb2 => ih f2' bs (by omega) (by omega))
                  simp only [hb, hcong]

lemma xpatch_reconstruct_column_eq_reconstruct (C : Codec) (rows : List PhysRow)
    (g c : Nat) (fuel : Nat) (s : Int) (h : s.toNat < fuel) :
    xpatch_reconstruct_column C rows g c fuel s = xpatch_reconstruct C rows g s c :=
  xpatch_reconstruct_column_fuel C rows g c fuel (s.toNat + 1) s h (by omega)

lemma xpatch_reconstruct_append (C : Codec) (rows : List PhysRow) (r : PhysRow)
    (g : Nat) (s : Int) (c : Nat) (h : g ≠ r.group ∨ s < r.seq) :
    xpatch_reconstruct C (rows ++ [r]) g s c = xpatch_reconstruct C rows g s c := by
  unfold xpatch_reconstruct
  exact xpatch_reconstruct_column_append C rows r g c (s.toNat + 1) s h

lemma warm_fold_mem : ∀ (l : List (Nat × Option (List Nat)))
    (acc : Option (Nat × List Nat)) (b : Nat × List Nat),
    l.foldl warm_step acc = some b →
    acc = some b ∨ ((b.1, some b.2) ∈ l ∧ b.2 ≠ []) := by
  intro l
  induction l with
  | nil => intro acc b h; exact Or.inl h
  | cons r rest ih =>
      intro acc b h
      rw [List.foldl_cons] at h
      rcases ih (warm_step acc r) b h with h1 | h1
      · obtain ⟨t, o⟩ := r
        cases o with
        | none => exact Or.inl h1
        | some d =>
            by_cases hd : (d.length == 0) = true
            · exact Or.inl (by simpa [warm_step, hd] using h1)
            · cases acc with
              | none =>
                  have hb : (t, d) = b := by simpa [warm_step, hd] using h1
                  subst hb
                  refine Or.inr ⟨List.mem_cons_self _ _, fun hnil => ?_⟩
                  have hdn : d = [] := hnil
                  rw [hdn] at hd
                  simp at hd
              | some bb =>
                  by_cases hlt : d.length < bb.2.length
                  · have hb : (t, d) = b := by simpa [warm_step, hd, hlt] using h1
                    subst hb
                    refine Or.inr ⟨List.mem_cons_self _ _, fun hnil => ?_⟩
                    have hdn : d = [] := hnil
                    rw [hdn] at hd
                    simp at hd
                  · have hb : bb = b := by simpa [warm_step, hd, hlt] using h1
                    exact Or.inl (by rw [hb])
      · exact Or.inr ⟨List.mem_cons_of_mem _ h1.1, h1.2⟩

lemma cold_fold_mem : ∀ (l : List (Nat × Option (List Nat)))
    (acc : Option (Nat × List Nat)) (b : Nat × List Nat),
    l.foldl cold_step acc = some b →
    acc = some b ∨ (b.1, some b.2) ∈ l := by
  intro l
  induction l with
  | nil => intro acc b h; exact Or.inl h
  | cons r rest ih =>
      intro acc b h
      rw [List.foldl_cons] at h
      rcases ih (cold_step acc r) b h with h1 | h1
      · obtain ⟨t, o⟩ := r
        cases o with
        | none => exact Or.inl h1
        | some d =>
            cases acc with
            | none =>
                have hb : (t, d) = b := by simpa [cold_step] using h1
                subst hb
                exact Or.inr (List.mem_cons_self _ _)
            | some bb =>
                by_cases hlt : d.length < bb.2.length
                · have hb : (t, d) = b := by simpa [cold_step, hlt] using h1
                  subst hb
                  exact Or.inr (List.mem_cons_self _ _)
                · have hb : bb = b := by simpa [cold_step, hlt] using h1
                  exact Or.inl (by rw [hb])
      · exact Or.inr (List.mem_cons_of_mem _ h1)

lemma warm_step_isSome (acc : Option (Nat × List Nat)) (r : Nat × Option (List Nat))
    (h : acc.isSome) : (warm_step acc r).isSome := by
  obtain ⟨t, o⟩ := r
  cases o with
  | none => exact h
  | some d =>
      by_cases hd : (d.length == 0) = true
      · simpa [warm_step, hd] using h
      · cases acc with
        | none => simp at h
        | some bb => by_cases hlt : d.length < bb.2.length <;> simp [warm_step, hd, hlt]

lemma warm_fold_isSome_of_acc : ∀ (l : List (Nat × Option (List Nat)))
    (acc : Option (Nat × List Nat)), acc.isSome → (l.foldl warm_step acc).isSome := by
  intro l
  induction l with
  | nil => intro acc h; exact h
  | cons r rest ih =>
      intro acc h
      rw [List.foldl_cons]
      exact ih _ (warm_step_isSome acc r h)

lemma warm_fold_isSome_of_mem : ∀ (l : List (Nat × Option (List Nat)))
    (acc : Option (Nat × List Nat)) (p : Nat × Option (List Nat)) (d : List Nat),
    p ∈ l → p.2 = some d → d ≠ [] → (l.foldl warm_step acc).isSome := by
  intro l
  induction l with
  | nil => intro acc p d hp; simp at hp
  | cons r rest ih =>
      intro acc p d hp hpd hdne
      rw [List.foldl_cons]
      rcases List.mem_cons.mp hp with hpr | hpr
      · subst hpr
        apply warm_fold_isSome_of_acc
        have hd : (d.length == 0) = false := by
          simp only [beq_eq_false_iff_ne]
          intro hz
          exact hdne (List.length_eq_zero.mp hz)
        obtain ⟨t, o⟩ := p
        simp only at hpd
        subst hpd
        cases acc with
        | none => simp [warm_step, hd]
        | some bb => by_cases hlt : d.length < bb.2.length <;> simp [warm_step, hd, hlt]
      · exact ih _ p d hpr hpd hdne

lemma insert_cache_get_bases_mem (entries : List FifoEntry) (depth : Nat) (new_seq : Int)
    (c : Nat) (p : Nat × List Nat) (hp : p ∈ insert_cache_get_bases entries depth new_seq c) :
    ∃ e ∈ entries, 1 ≤ new_seq - e.seq ∧ new_seq - e.seq ≤ (depth : Int) ∧
      (p.1 : Int) = new_seq - e.seq ∧ e.cols.getD c none = some p.2 ∧ p.2 ≠ [] := by
  unfold insert_cache_get_bases at hp
  have hp' := (List.perm_insertionSort (fun (a b : Nat × List Nat) => a.1 ≤ b.1) _).mem_iff.mp hp
  rcases List.mem_filterMap.mp hp' with ⟨e, he, hfe⟩
  by_cases h1 : (decide (new_seq - e.seq < 1) || decide ((depth : Int) < new_seq - e.seq)) = true
  · rw [if_pos h1] at hfe
    exact absurd hfe (by simp)
  · rw [if_neg h1] at hfe
    simp only [Bool.or_eq_true, decide_eq_true_eq, not_or, not_lt] at h1
    cases hc : e.cols.getD c none with
    | none =>
        rw [hc] at hfe
        have hfe' : (none : Option (Nat × List Nat)) = some p := hfe
        cases hfe'
    | some d =>
        rw [hc] at hfe
        have hfe' : (if (d.length == 0) = true then none
            else some ((new_seq - e.seq).toNat, d)) = some p := hfe
        by_cases hd : (d.length == 0) = true
        · rw [if_pos hd] at hfe'
          exact absurd hfe' (by simp)
        · rw [if_neg hd] at hfe'
          have hpe : ((new_seq - e.seq).toNat, d) = p := by simpa using hfe'
          subst hpe
          refine ⟨e, he, by omega, by omega, ?_, hc, fun hnil => ?_⟩
          · exact Int.toNat_of_nonneg (by omega)
          · have hdn : d = [] := hnil
            rw [hdn] at hd
            simp at hd

lemma cold_fold_ok_mem (C : Codec) (rows : List PhysRow) (g : Nat) (new_seq : Int)
    (c : Nat) (x : List Nat) (z : Bool) :
    ∀ (ts : List Nat), (∀ t ∈ ts, 1 ≤ t) →
      ∀ (acc cands : List (Nat × Option (List Nat))),
      ts.foldlM (fun acc' (t : Nat) =>
        let base_seq : Int := new_seq - Int.ofNat t
        if base_seq < 1 then pure acc'
        else
          match xpatch_reconstruct C rows g base_seq c with
          | .error e => .error e
          | .ok none => pure acc'
          | .ok (some base) => pure (acc' ++ [(t, C.encode t base x z)])) acc
        = Except.ok cands →
      ∀ p ∈ cands, p ∈ acc ∨ (1 ≤ p.1 ∧ 1 ≤ new_seq - (p.1 : Int) ∧ ∃ base,
        xpatch_reconstruct C rows g (new_seq - (p.1 : Int)) c = .ok (some base) ∧
        p.2 = C.encode p.1 base x z) := by
  intro ts
  induction ts with
  | nil =>
      intro _ acc cands h p hp
      have h' : (Except.ok acc : Except XErr (List (Nat × Option (List Nat))))
          = Except.ok cands := h
      cases h'
      exact Or.inl hp
  | cons t ts ih =>
      intro hts acc cands h p hp
      have hts' : ∀ t' ∈ ts, 1 ≤ t' := fun t' ht' => hts t' (List.mem_cons_of_mem _ ht')
      rw [List.foldlM_cons] at h
      by_cases hbs : new_seq - Int.ofNat t < 1
      · rw [if_pos hbs] at h
        have h' : ts.foldlM _ acc = Except.ok cands := h
        exact ih hts' acc cands h' p hp
      · rw [if_neg hbs] at h
        cases hre : xpatch_reconstruct C rows g (new_seq - Int.ofNat t) c with
        | error e =>
            rw [hre] at h
            have h' : (Except.error e : Except XErr (List (Nat × Option (List Nat))))
                = Except.ok cands := h
            cases h'
        | ok o =>
            rw [hre] at h
            cases o with
            | none =>
                have h' : ts.foldlM _ acc = Except.ok cands := h
                exact ih hts' acc cands h' p hp
            | some base =>
                have h' : ts.foldlM _ (acc ++ [(t, C.encode t base x z)])
                    = Except.ok cands := h
                rcases ih hts' _ cands h' p hp with hmem | hfact
                · rcases List.mem_append.mp hmem with hmem | hmem
                  · exact Or.inl hmem
                  · have hpe : p = (t, C.encode t base x z) := by simpa using hmem
                    subst hpe
                    refine Or.inr ⟨hts t (List.mem_cons_self _ _),
                      by simpa [Int.ofNat_eq_coe] using hbs, base, ?_, rfl⟩
                    rw [show ((t : Int)) = Int.ofNat t from rfl]
                    exact hre
                · exact Or.inr hfact

lemma exceptMapM_spec {α β ε : Type} (f : α → Except ε β) (da : α) (db : β) :
    ∀ (l : List α) (bs : List β), l.mapM f = .ok bs →
      bs.length = l.length ∧ ∀ i, i < l.length → f (l.getD i da) = .ok (bs.getD i db) := by
  intro l
  induction l with
  | nil =>
      intro bs h
      have h' : (Except.ok [] : Except ε (List β)) = .ok bs := h
      cases h'
      exact ⟨rfl, fun i hi => absurd hi (Nat.not_lt_zero _)⟩
  | cons a l ih =>
      intro bs h
      rw [List.mapM_cons] at h
      cases hfa : f a with
      | error e =>
          rw [hfa] at h
          have h' : (Except.error e : Except ε (List β)) = .ok bs := h
          cases h'
      | ok b =>
          rw [hfa] at h
          have h1 : (l.mapM f >>= fun bs' => pure (b :: bs') : Except ε (List β))
              = .ok bs := h
          cases hml : l.mapM f with
          | error e =>
              rw [hml] at h1
              have h' : (Except.error e : Except ε (List β)) = .ok bs := h1
              cases h'
          | ok bs' =>
              rw [hml] at h1
              have h' : (Except.ok (b :: bs') : Except ε (List β)) = .ok bs := h1
              have hbs : b :: bs' = bs := by
                injection h'
              subst hbs
              obtain ⟨hlen, hget⟩ := ih bs' hml
              refine ⟨by simp [hlen], fun i hi => ?_⟩
              cases i with
              | zero => simpa using hfa
              | succ j =>
                  have := hget j (by simpa using hi)
                  simpa using this

lemma fifo_push_content_eq_some (v : Option (List Nat)) (d : List Nat)
    (h : fifo_push_content v = some d) : v = some d := by
  cases v with
  | none => simp [fifo_push_content] at h
  | some d' =>
      by_cases hz : (d'.length == 0) = true
      · simp [fifo_push_content, hz] at h
      · have h' : some d' = some d := by simpa [fifo_push_content, hz] using h
        exact h'

lemma insert_cache_populate_spec (C : Codec) (rows : List PhysRow) (g : Nat)
    (ncols depth : Nat) (mx : Int) (es : List FifoEntry)
    (h : insert_cache_populate C rows g ncols depth mx = .ok es) :
    ∀ e ∈ es, 1 ≤ e.seq ∧ e.seq ≤ mx ∧
      ∀ c d, e.cols.getD c none = some d →
        xpatch_reconstruct C rows g e.seq c = .ok (some d) := by
  intro e he
  unfold insert_cache_populate at h
  obtain ⟨hlen, hget⟩ := exceptMapM_spec _ (0 : Int) (⟨0, []⟩ : FifoEntry) _ es h
  rcases List.mem_iff_getElem.mp he with ⟨i, hi, hie⟩
  have hie' : es.getD i ⟨0, []⟩ = e := by
    rw [List.getD_eq_getElem?_getD]
    simp [List.getElem?_eq_getElem hi, hie]
  have hilt : i < ((List.range (min depth mx.toNat)).map
      (fun j => mx - Int.ofNat j)).length := by
    simpa [hlen] using hi
  have hseq_i : ((List.range (min depth mx.toNat)).map
      (fun j => mx - Int.ofNat j)).getD i 0 = mx - Int.ofNat i := by
    rw [List.getD_eq_getElem?_getD]
    have hi' : i < min depth mx.toNat := by simpa using hilt
    simp [List.getElem?_eq_getElem, hi']
  have hfi := hget i hilt
  rw [hseq_i, hie'] at hfi
  have hi' : i < min depth mx.toNat := by simpa using hilt
  cases hcols : (List.range ncols).mapM (fun c => do
      let v ← xpatch_reconstruct C rows g (mx - Int.ofNat i) c
      pure (fifo_push_content v)) with
  | error er =>
      rw [show ((do
          let cols ← (List.range ncols).mapM (fun c => do
            let v ← xpatch_reconstruct C rows g (mx - Int.ofNat i) c
            pure (fifo_push_content v))
          pure (⟨mx - Int.ofNat i, cols⟩ : FifoEntry)) : Except XErr FifoEntry)
        = Except.error er from by rw [hcols]; rfl] at hfi
      cases hfi
  | ok cols =>
      have hfi' : (⟨mx - Int.ofNat i, cols⟩ : FifoEntry) = e := by
        have : (Except.ok (⟨mx - Int.ofNat i, cols⟩ : FifoEntry) : Except XErr FifoEntry)
            = Except.ok e := by
          rw [← hfi, hcols]
          rfl
        injection this
      subst hfi'
      refine ⟨by show (1 : Int) ≤ mx - Int.ofNat i; simp only [Int.ofNat_eq_coe]; omega,
        by show mx - Int.ofNat i ≤ mx; simp only [Int.ofNat_eq_coe]; omega,
        fun c d hcd => ?_⟩
      obtain ⟨hclen, hcget⟩ := exceptMapM_spec _ 0 (none : Option (List Nat)) _ cols hcols
      by_cases hc : c < ncols
      · have hcl : c < (List.range ncols).length := by simpa using hc
        have := hcget c (by simpa using hc)
        have hrg : (List.range ncols).getD c 0 = c := by
          rw [List.getD_eq_getElem?_getD]
          simp [List.getElem?_eq_getElem, hcl, hc]
        rw [hrg] at this
        simp only at hcd
        cases hv : xpatch_reconstruct C rows g (mx - Int.ofNat i) c with
        | error er =>
            rw [show ((do
                let v ← xpatch_reconstruct C rows g (mx - Int.ofNat i) c
                pure (fifo_push_content v)) : Except XErr (Option (List Nat)))
              = Except.error er from by rw [hv]; rfl] at this
            cases this
        | ok v =>
            have hv' : fifo_push_content v = cols.getD c none := by
              have heq : (Except.ok (fifo_push_content v) : Except XErr (Option (List Nat)))
                  = Except.ok (cols.getD c none) := by
                rw [← this, hv]
                rfl
              injection heq
            rw [hcd] at hv'
            have hvd := fifo_push_content_eq_some v d hv'
            rw [hvd]
      · exfalso
        have hge : cols.length = ncols := by simpa using hclen
        have : cols.getD c none = none := by
          rw [List.getD_eq_getElem?_getD]
          rw [List.getElem?_eq_none (by omega)]
          rfl
        rw [this] at hcd
        cases hcd

lemma encode_delta_column_chain (C : Codec) (hC : C.Contract) (rows : List PhysRow)
    (g : Nat) (es : List FifoEntry) (depth : Nat) (new_seq : Int) (c : Nat)
    (x : List Nat) (z : Bool) (blob : List Nat)
    (hseqs : ∀ e ∈ es, 1 ≤ e.seq)
    (hes : ∀ e ∈ es, ∀ d, e.cols.getD c none = some d →
        xpatch_reconstruct C rows g e.seq c = .ok (some d))
    (hok : encode_delta_column C rows g es depth new_seq c x z = .ok blob) :
    (C.tag_of blob = .ok 0 ∧ C.decode [] blob = .ok x) ∨
    (∃ t : Nat, 1 ≤ t ∧ C.tag_of blob = .ok t ∧ 1 ≤ new_seq - (t : Int) ∧
      ∃ base, xpatch_reconstruct C rows g (new_seq - (t : Int)) c = .ok (some base) ∧
        C.decode base blob = .ok x) := by
  unfold encode_delta_column at hok
  split at hok
  next e heq => exact Except.noConfusion hok
  next b heq =>
    have hblob : b.2 = blob := by injection hok
    subst hblob
    unfold delta_candidate_choice at heq
    by_cases hb : 0 < (insert_cache_get_bases es depth new_seq c).length
    · rw [if_pos hb] at heq
      have hp : pick_smallest_warm ((insert_cache_get_bases es depth new_seq c).map
          (fun p => (p.1, C.encode p.1 p.2 x z))) = some b := by injection heq
      rcases warm_fold_mem _ none b hp with hcontr | ⟨hmem, _⟩
      · cases hcontr
      · rcases List.mem_map.mp hmem with ⟨q, hq, hqe⟩
        injection hqe with hq1 hq2
        obtain ⟨e, he, htag1, _, htageq, hcol, _⟩ :=
          insert_cache_get_bases_mem es depth new_seq c q hq
        obtain ⟨hdec, htag⟩ := hC q.1 q.2 x z b.2 hq2
        have hepos : 1 ≤ e.seq := hseqs e he
        refine Or.inr ⟨b.1, ?_, ?_, ?_, q.2, ?_, ?_⟩
        · omega
        · rw [← hq1]; exact htag
        · omega
        · have hseq : e.seq = new_seq - ((b.1 : Nat) : Int) := by omega
          rw [← hseq]
          exact hes e he q.2 hcol
        · exact hdec
    · rw [if_neg hb] at heq
      cases hcc : cold_candidates C rows g depth new_seq c x z with
      | error er =>
          rw [hcc] at heq
          have heq' : (Except.error er : Except XErr (Option (Nat × List Nat)))
              = Except.ok (some b) := heq
          cases heq'
      | ok cands =>
          rw [hcc] at heq
          have heq' : (Except.ok (pick_smallest_cold cands) :
              Except XErr (Option (Nat × List Nat))) = Except.ok (some b) := heq
          have hp : pick_smallest_cold cands = some b := by injection heq'
          rcases cold_fold_mem _ none b hp with hcontr | hmem
          · cases hcontr
          · have hts : ∀ t ∈ (List.range depth).map (· + 1), 1 ≤ t := by
              intro t ht
              rcases List.mem_map.mp ht with ⟨j, _, hj⟩
              omega
            have hfacts := cold_fold_ok_mem C rows g new_seq c x z
              ((List.range depth).map (· + 1)) hts [] cands
              (by unfold cold_candidates at hcc; exact hcc)
              (b.1, some b.2) hmem
            rcases hfacts with hcontr | ⟨ht1, hseq1, base, hbase, henc⟩
            · cases hcontr
            · have henc' : C.encode b.1 base x z = some b.2 := henc.symm
              obtain ⟨hdec, htag⟩ := hC b.1 base x z b.2 henc'
              exact Or.inr ⟨b.1, ht1, htag, hseq1, base, hbase, hdec⟩
  next heq =>
    split at hok
    next d hk =>
      have hblob : d = blob := by injection hok
      subst hblob
      obtain ⟨hdec, htag⟩ := hC 0 [] x z d hk
      exact Or.inl ⟨htag, hdec⟩
    next hk => exact Except.noConfusion hok

lemma encode_keyframe_column_chain (C : Codec) (hC : C.Contract)
    (x blob : List Nat) (z : Bool)
    (hok : encode_keyframe_column C x z = .ok blob) :
    C.tag_of blob = .ok 0 ∧ C.decode [] blob = .ok x := by
  unfold encode_keyframe_column at hok
  cases hk : C.encode 0 [] x z with
  | some d =>
      rw [hk] at hok
      have hblob : d = blob := by
        have : (Except.ok d : Except XErr (List Nat)) = Except.ok blob := hok
        injection this
      subst hblob
      obtain ⟨hdec, htag⟩ := hC 0 [] x z d hk
      exact ⟨htag, hdec⟩
  | none =>
      rw [hk] at hok
      cases hok

lemma reconstruct_new_row (C : Codec) (rows : List PhysRow) (r : PhysRow) (c : Nat)
    (x blob : List Nat)
    (hfetch : xpatch_fetch_by_seq (rows ++ [r]) r.group r.seq = some r)
    (hblob : r.blobs.getD c none = some blob)
    (hchain : (C.tag_of blob = .ok 0 ∧ C.decode [] blob = .ok x) ∨
       (∃ t : Nat, 1 ≤ t ∧ C.tag_of blob = .ok t ∧ 1 ≤ r.seq - (t : Int) ∧ ∃ base,
         xpatch_reconstruct C (rows ++ [r]) r.group (r.seq - (t : Int)) c = .ok (some base) ∧
         C.decode base blob = .ok x)) :
    xpatch_reconstruct C (rows ++ [r]) r.group r.seq c = .ok (some x) := by
  unfold xpatch_reconstruct
  simp only [xpatch_reconstruct_column]
  rw [hfetch]
  simp only []
  rw [hblob]
  simp only []
  rcases hchain with ⟨htag, hdec⟩ | ⟨t, ht1, htag, hts, base, hbase, hdec⟩
  · unfold xpatch_reconstruct_from_delta
    rw [htag, hdec]
  · unfold xpatch_reconstruct_from_delta
    obtain ⟨t', rfl⟩ : ∃ u, t = Nat.succ u := ⟨t - 1, by omega⟩
    rw [htag]
    simp only []
    rw [if_neg (by push_cast at hts ⊢; omega)]
    have hfuel : xpatch_reconstruct_column C (rows ++ [r]) r.group c r.seq.toNat
        (r.seq - ((t' : Int) + 1)) = xpatch_reconstruct C (rows ++ [r]) r.group
        (r.seq - ((t' : Int) + 1)) c := by
      apply xpatch_reconstruct_column_eq_reconstruct
      push_cast at hts
      omega
    rw [hfuel]
    rw [show r.seq - ((t' : Int) + 1) = r.seq - ((Nat.succ t' : Nat) : Int) from by
      push_cast; ring]
    rw [hbase]
    simp only []
    rw [hdec]

lemma scan_max_append_le (rows : List PhysRow) (r : PhysRow) (g : Nat) :
    xpatch_scan_max_seq rows g ≤ xpatch_scan_max_seq (rows ++ [r]) g := by
  rw [xpatch_scan_max_seq_append]
  by_cases h : (!r.deleted && r.group == g && decide (xpatch_scan_max_seq rows g < r.seq)) = true
  · rw [if_pos h]
    simp only [Bool.and_eq_true, decide_eq_true_eq] at h
    omega
  · rw [if_neg h]

lemma fifo_lookup_set_self (fifo : FifoState) (g : Nat) (es : List FifoEntry) :
    fifo_lookup (fifo_set fifo g es) g = some es := by
  unfold fifo_lookup fifo_set
  by_cases ha : fifo.any (fun p => p.1 == g) = true
  · rw [if_pos ha, List.find?_map]
    have hpc : ((fun p : Nat × List FifoEntry => p.1 == g) ∘
        (fun p : Nat × List FifoEntry => if p.1 == g then (p.1, es) else p))
        = fun p : Nat × List FifoEntry => p.1 == g := by
      funext q
      by_cases hq : (q.1 == g) = true
      · rw [Function.comp_apply, if_pos hq]
      · rw [Function.comp_apply, if_neg hq]
    rw [hpc]
    cases hf : fifo.find? (fun p => p.1 == g) with
    | none =>
        rw [List.find?_eq_none] at hf
        obtain ⟨q, hq, hpq⟩ := List.any_eq_true.mp ha
        exact absurd hpq (hf q hq)
    | some q =>
        have hq : (q.1 == g) = true := by simpa using List.find?_some hf
        have hg : q.1 = g := by simpa using hq
        simp [hq, hg]
  · rw [if_neg ha, List.find?_append]
    have hnone : fifo.find? (fun p => p.1 == g) = none := by
      rw [List.find?_eq_none]
      intro q hq hpq
      exact ha (List.any_eq_true.mpr ⟨q, hq, hpq⟩)
    rw [hnone]
    simp [List.find?_cons]

lemma fifo_lookup_set_other (fifo : FifoState) (g g' : Nat) (es : List FifoEntry)
    (h : g' ≠ g) :
    fifo_lookup (fifo_set fifo g es) g' = fifo_lookup fifo g' := by
  unfold fifo_lookup fifo_set
  by_cases ha : fifo.any (fun p => p.1 == g) = true
  · rw [if_pos ha, List.find?_map]
    have hpc : ((fun p : Nat × List FifoEntry => p.1 == g') ∘
        (fun p : Nat × List FifoEntry => if p.1 == g then (p.1, es) else p))
        = fun p : Nat × List FifoEntry => p.1 == g' := by
      funext q
      by_cases hq : (q.1 == g) = true
      · rw [Function.comp_apply, if_pos hq]
      · rw [Function.comp_apply, if_neg hq]
    rw [hpc]
    cases hf : fifo.find? (fun p => p.1 == g') with
    | none => simp
    | some q =>
        have hq : (q.1 == g') = true := by simpa using List.find?_some hf
        have hqg : (q.1 == g) = false := by
          have : q.1 = g' := by simpa using hq
          simp [this, h]
        have hng : ¬ q.1 = g := by simpa using hqg
        simp [hqg, hng]
  · rw [if_neg ha, List.find?_append]
    have h2 : List.find? (fun p : Nat × List FifoEntry => p.1 == g') [(g, es)] = none := by
      simp [List.find?_cons, Ne.symm h]
    rw [h2, Option.or_none]

lemma map_some_getD (l : List (List Nat)) (c : Nat) (h : c < l.length) :
    (l.map some).getD c none = some (l.getD c []) := by
  rw [List.getD_eq_getElem?_getD, List.getElem?_map, List.getD_eq_getElem?_getD,
    List.getElem?_eq_getElem h]
  rfl

lemma map_some_getD_ge (l : List (List Nat)) (c : Nat) (h : l.length ≤ c) :
    (l.map some).getD c none = none := by
  rw [List.getD_eq_getElem?_getD, List.getElem?_eq_none (by simpa using h)]
  rfl

lemma enum_getD (l : List (List Nat)) (c : Nat) (h : c < l.length) :
    l.enum.getD c (0, []) = (c, l.getD c []) := by
  have hlen : c < l.enum.length := by simpa using h
  rw [List.getD_eq_getElem?_getD, List.getElem?_eq_getElem hlen,
    List.getD_eq_getElem?_getD, List.getElem?_eq_getElem h]
  simp [List.getElem_enum]

lemma EngineInv_init (C : Codec) (cfg : XPatchConfig) (relid : Nat) :
    EngineInv C cfg relid init_state [] := by
  refine ⟨by simp [init_state], ?_, ?_, ?_, ?_, ?_⟩
  · intro g v h
    simp [init_state, seq_cache_get_max_seq] at h
  · intro r hr
    simp [init_state] at hr
  · intro e he
    simp at he
  · intro g st h1 h2
    have h0 : xpatch_scan_max_seq init_state.rows g = 0 := rfl
    rw [h0] at h2
    omega
  · intro g es h
    simp [init_state, fifo_lookup] at h

lemma xpatch_alloc_seq_spec (relid : Nat) (cache : GroupSeqCache) (rows : List PhysRow)
    (g : Nat) (hne : cache ≠ none)
    (hacc : ∀ g' v, seq_cache_get_max_seq cache relid g' = some v →
        v = xpatch_scan_max_seq rows g') :
    (xpatch_alloc_seq relid cache rows g).2 = xpatch_scan_max_seq rows g + 1 ∧
    (xpatch_alloc_seq relid cache rows g).1 ≠ none ∧
    seq_cache_get_max_seq (xpatch_alloc_seq relid cache rows g).1 relid g
      = some (xpatch_scan_max_seq rows g + 1) ∧
    (∀ relid' g', (relid' ≠ relid ∨ g' ≠ g) →
      seq_cache_get_max_seq (xpatch_alloc_seq relid cache rows g).1 relid' g'
        = seq_cache_get_max_seq cache relid' g') := by
  cases cache with
  | none => exact absurd rfl hne
  | some es =>
    cases hf : es.find? (gsc_match relid g) with
    | none =>
        have hnext : seq_cache_next_seq (some es) relid g = (some es, 0) := by
          simp [seq_cache_next_seq, hf]
        have hget0 : seq_cache_get_max_seq (some es) relid g = none := by
          simp [seq_cache_get_max_seq, hf]
        have halloc : xpatch_alloc_seq relid (some es) rows g
            = (seq_cache_set_max_seq
                (seq_cache_set_max_seq (some es) relid g (xpatch_scan_max_seq rows g))
                relid g (xpatch_scan_max_seq rows g + 1),
               xpatch_scan_max_seq rows g + 1) := by
          simp [xpatch_alloc_seq, hnext, xpatch_get_max_seq, hget0]
        have hinner : seq_cache_set_max_seq (some es) relid g (xpatch_scan_max_seq rows g)
            ≠ none := seq_cache_set_ne_none _ relid g _ (by simp)
        refine ⟨by rw [halloc], ?_, ?_, ?_⟩
        · rw [halloc]
          exact seq_cache_set_ne_none _ relid g _ hinner
        · rw [halloc]
          exact seq_cache_get_set_self _ relid g _ hinner
        · intro relid' g' hk
          rw [halloc]
          show seq_cache_get_max_seq (seq_cache_set_max_seq _ relid g _) relid' g' = _
          rw [seq_cache_get_set_other _ relid g relid' g' _ hk,
            seq_cache_get_set_other _ relid g relid' g' _ hk]
    | some e =>
        have hv : seq_cache_get_max_seq (some es) relid g = some e.max_seq := by
          simp [seq_cache_get_max_seq, hf]
        have hval : e.max_seq = xpatch_scan_max_seq rows g := hacc g e.max_seq hv
        have hpos : (0 : Int) ≤ xpatch_scan_max_seq rows g := xpatch_scan_max_seq_nonneg rows g
        have hnz : ¬ e.max_seq + 1 = 0 := by omega
        have hnext : seq_cache_next_seq (some es) relid g
            = (some (es.map (fun e' =>
                if gsc_match relid g e' then { e' with max_seq := e'.max_seq + 1 } else e')),
               e.max_seq + 1) := by
          simp [seq_cache_next_seq, hf]
        have halloc : xpatch_alloc_seq relid (some es) rows g
            = (some (es.map (fun e' =>
                if gsc_match relid g e' then { e' with max_seq := e'.max_seq + 1 } else e')),
               e.max_seq + 1) := by
          simp [xpatch_alloc_seq, hnext, hnz]
        refine ⟨by rw [halloc]; show e.max_seq + 1 = _; omega, ?_, ?_, ?_⟩
        · rw [halloc]
          simp
        · rw [halloc, show xpatch_scan_max_seq rows g = e.max_seq from hval.symm]
          exact seq_cache_get_update_self es relid g (fun m => m + 1) e hf
        · intro relid' g' hk
          rw [halloc]
          exact seq_cache_get_update_other es relid g relid' g' (fun m => m + 1) hk

lemma xpatch_acquire_entries_spec (C : Codec) (cfg : XPatchConfig) (st : EngineState)
    (g : Nat) (new_seq : Int) (is_kf : Bool) (es : List FifoEntry)
    (hfifo : ∀ g' es', fifo_lookup st.fifo g' = some es' → ∀ e ∈ es',
        1 ≤ e.seq ∧ e.seq ≤ xpatch_scan_max_seq st.rows g' ∧
        ∀ c d, e.cols.getD c none = some d →
          xpatch_reconstruct C st.rows g' e.seq c = .ok (some d))
    (hmax : xpatch_scan_max_seq st.rows g ≤ new_seq - 1)
    (hok : xpatch_acquire_entries C cfg st g new_seq is_kf = .ok es) :
    ∀ e ∈ es, 1 ≤ e.seq ∧ e.seq ≤ new_seq - 1 ∧
      ∀ c d, e.cols.getD c none = some d →
        xpatch_reconstruct C st.rows g e.seq c = .ok (some d) := by
  unfold xpatch_acquire_entries at hok
  cases hl : fifo_lookup st.fifo g with
  | some es0 =>
      rw [hl] at hok
      have hes : es0 = es := by injection hok
      subst hes
      intro e he
      obtain ⟨h1, h2, h3⟩ := hfifo g es0 hl e he
      exact ⟨h1, by omega, h3⟩
  | none =>
      rw [hl] at hok
      by_cases hc : (1 < new_seq && !is_kf) = true
      · rw [if_pos hc] at hok
        intro e he
        obtain ⟨h1, h2, h3⟩ := insert_cache_populate_spec C st.rows g
          cfg.num_delta_columns cfg.compress_depth (new_seq - 1) es hok e he
        exact ⟨h1, h2, h3⟩
      · rw [if_neg hc] at hok
        have hes : ([] : List FifoEntry) = es := by injection hok
        subst hes
        intro e he
        simp at he

lemma map_push_getD (l : List (List Nat)) (c : Nat) (h : c < l.length) :
    (l.map (fun x => fifo_push_content (some x))).getD c none
      = fifo_push_content (some (l.getD c [])) := by
  rw [List.getD_eq_getElem?_getD, List.getElem?_map, List.getD_eq_getElem?_getD,
    List.getElem?_eq_getElem h]
  rfl

lemma map_push_getD_ge (l : List (List Nat)) (c : Nat) (h : l.length ≤ c) :
    (l.map (fun x => fifo_push_content (some x))).getD c none = none := by
  rw [List.getD_eq_getElem?_getD, List.getElem?_eq_none (by simpa using h)]
  rfl

/-- Every column of a freshly inserted physical row reconstructs to its
original contents: the per-column encode (keyframe or delta) yields a
blob whose chain, rooted at the new row appended to the heap, replays to
the inserted bytes. -/
lemma encode_columns_reconstruct (C : Codec) (hC : C.Contract) (rows : List PhysRow)
    (g : Nat) (ver : Int) (es : List FifoEntry) (depth : Nat) (ns : Int) (kf : Bool)
    (cols blobs : List (List Nat)) (z : Bool)
    (hns : xpatch_scan_max_seq rows g < ns)
    (hvis : ∀ r ∈ rows, r.deleted = false)
    (hseqs : ∀ e ∈ es, 1 ≤ e.seq)
    (hes : ∀ e ∈ es, ∀ c d, e.cols.getD c none = some d →
        xpatch_reconstruct C rows g e.seq c = .ok (some d))
    (hmap : cols.enum.mapM (fun pc =>
        if kf then encode_keyframe_column C pc.2 z
        else encode_delta_column C rows g es depth ns pc.1 pc.2 z) = .ok blobs) :
    blobs.length = cols.length ∧
    ∀ c, c < cols.length →
      xpatch_reconstruct C (rows ++ [⟨g, ns, ver, blobs.map some, false⟩]) g ns c
        = .ok (some (cols.getD c [])) := by
  obtain ⟨hblen0, hbget⟩ := exceptMapM_spec _ ((0 : Nat), ([] : List Nat)) ([] : List Nat)
    _ blobs hmap
  have hblen : blobs.length = cols.length := by simpa using hblen0
  refine ⟨hblen, fun c hc => ?_⟩
  have hce : c < cols.enum.length := by simpa using hc
  have hfe0 := hbget c hce
  rw [enum_getD cols c hc] at hfe0
  have hfe : (if kf then encode_keyframe_column C (cols.getD c []) z
      else encode_delta_column C rows g es depth ns c (cols.getD c []) z)
      = .ok (blobs.getD c []) := hfe0
  have hcb : c < blobs.length := by omega
  have hfetch : xpatch_fetch_by_seq (rows ++ [(⟨g, ns, ver, blobs.map some, false⟩ : PhysRow)])
      g ns = some ⟨g, ns, ver, blobs.map some, false⟩ :=
    fetch_append_self rows ⟨g, ns, ver, blobs.map some, false⟩
      (fetch_none_of_gt_max rows g ns hvis hns)
  have hblob : ((⟨g, ns, ver, blobs.map some, false⟩ : PhysRow)).blobs.getD c none
      = some (blobs.getD c []) := map_some_getD blobs c hcb
  have hchain : (C.tag_of (blobs.getD c []) = .ok 0 ∧
        C.decode [] (blobs.getD c []) = .ok (cols.getD c [])) ∨
      (∃ t : Nat, 1 ≤ t ∧ C.tag_of (blobs.getD c []) = .ok t ∧ 1 ≤ ns - (t : Int) ∧
        ∃ base, xpatch_reconstruct C (rows ++ [⟨g, ns, ver, blobs.map some, false⟩]) g
            (ns - (t : Int)) c = .ok (some base) ∧
          C.decode base (blobs.getD c []) = .ok (cols.getD c [])) := by
    by_cases hkf : kf = true
    · rw [if_pos hkf] at hfe
      exact Or.inl (encode_keyframe_column_chain C hC _ _ z hfe)
    · rw [if_neg hkf] at hfe
      rcases encode_delta_column_chain C hC rows g es depth ns c (cols.getD c []) z
          (blobs.getD c []) hseqs (fun e he d => hes e he c d) hfe with
        ⟨htag, hdec⟩ | ⟨t, ht1, htag, hts, base, hbase, hdec⟩
      · exact Or.inl ⟨htag, hdec⟩
      · refine Or.inr ⟨t, ht1, htag, hts, base, ?_, hdec⟩
        rw [xpatch_reconstruct_append C rows ⟨g, ns, ver, blobs.map some, false⟩ g
          (ns - (t : Int)) c (Or.inr (show ns - (t : Int) < ns by omega))]
        exact hbase
  exact reconstruct_new_row C rows ⟨g, ns, ver, blobs.map some, false⟩ c (cols.getD c [])
    (blobs.getD c []) hfetch hblob hchain

/-- Outcome characterization of xpatch_tuple_insert: either some step
after allocation failed and the state is the rollback state, or the
FIFO acquisition and every column encode succeeded and the new physical
row is appended with the FIFO slot committed. -/
lemma xpatch_tuple_insert_cases (C : Codec) (cfg : XPatchConfig) (relid : Nat)
    (st : EngineState) (row : LogicalRow)
    (hpos : 0 < (xpatch_alloc_seq relid st.seq_cache st.rows row.group).2) :
    (xpatch_tuple_insert C cfg relid st row
        = ({ st with seq_cache :=
              (seq_cache_rollback_seq
                (xpatch_alloc_seq relid st.seq_cache st.rows row.group).1
                relid row.group
                (xpatch_alloc_seq relid st.seq_cache st.rows row.group).2).1 },
           none)) ∨
    (∃ es blobs,
      xpatch_acquire_entries C cfg st row.group
          (xpatch_alloc_seq relid st.seq_cache st.rows row.group).2
          ((xpatch_alloc_seq relid st.seq_cache st.rows row.group).2 == 1
            || (xpatch_alloc_seq relid st.seq_cache st.rows row.group).2
                % (cfg.keyframe_every : Int) == 1) = .ok es ∧
      row.cols.enum.mapM (fun pc =>
          if ((xpatch_alloc_seq relid st.seq_cache st.rows row.group).2 == 1
              || (xpatch_alloc_seq relid st.seq_cache st.rows row.group).2
                  % (cfg.keyframe_every : Int) == 1) then
            encode_keyframe_column C pc.2 cfg.enable_zstd
          else
            encode_delta_column C st.rows row.group es cfg.compress_depth
              (xpatch_alloc_seq relid st.seq_cache st.rows row.group).2 pc.1 pc.2
              cfg.enable_zstd) = .ok blobs ∧
      xpatch_tuple_insert C cfg relid st row
        = ({ rows := st.rows ++ [⟨row.group,
              (xpatch_alloc_seq relid st.seq_cache st.rows row.group).2, row.version,
              blobs.map some, false⟩],
             seq_cache := (xpatch_alloc_seq relid st.seq_cache st.rows row.group).1,
             fifo := fifo_set st.fifo row.group
               (((⟨(xpatch_alloc_seq relid st.seq_cache st.rows row.group).2,
                   row.cols.map (fun x => fifo_push_content (some x))⟩ : FifoEntry)
                  :: es).take cfg.compress_depth) },
           some (xpatch_alloc_seq relid st.seq_cache st.rows row.group).2)) := by
  unfold xpatch_tuple_insert xpatch_logical_to_physical
  cases hacq : xpatch_acquire_entries C cfg st row.group
      (xpatch_alloc_seq relid st.seq_cache st.rows row.group).2
      ((xpatch_alloc_seq relid st.seq_cache st.rows row.group).2 == 1
        || (xpatch_alloc_seq relid st.seq_cache st.rows row.group).2
            % (cfg.keyframe_every : Int) == 1) with
  | error e =>
      left
      simp only [hacq]
      rw [if_pos hpos]
  | ok es =>
      cases hmap : row.cols.enum.mapM (fun pc =>
          if ((xpatch_alloc_seq relid st.seq_cache st.rows row.group).2 == 1
              || (xpatch_alloc_seq relid st.seq_cache st.rows row.group).2
                  % (cfg.keyframe_every : Int) == 1) then
            encode_keyframe_column C pc.2 cfg.enable_zstd
          else
            encode_delta_column C st.rows row.group es cfg.compress_depth
              (xpatch_alloc_seq relid st.seq_cache st.rows row.group).2 pc.1 pc.2
              cfg.enable_zstd) with
      | error e =>
          left
          simp only [hacq, hmap]
          show ({ st with seq_cache :=
              if 0 < (xpatch_alloc_seq relid st.seq_cache st.rows row.group).2 then
                (seq_cache_rollback_seq
                  (xpatch_alloc_seq relid st.seq_cache st.rows row.group).1
                  relid row.group
                  (xpatch_alloc_seq relid st.seq_cache st.rows row.group).2).1
              else (xpatch_alloc_seq relid st.seq_cache st.rows row.group).1 },
            (none : Option Int)) = _
          rw [if_pos hpos]
      | ok blobs =>
          right
          refine ⟨es, blobs, rfl, hmap, ?_⟩
          simp only [hacq, hmap]
          rfl

/-- One xpatch_tuple_insert step preserves the engine invariant: on the
PG_CATCH path the sequence rollback restores the cache view, and on
success the appended row, the extended log entry and the committed FIFO
slot re-establish every conjunct. -/
lemma insert_step_inv (C : Codec) (cfg : XPatchConfig) (relid : Nat)
    (st : EngineState) (row : LogicalRow) (log : List (Nat × Int × List (List Nat)))
    (hC : C.Contract) (hinv : EngineInv C cfg relid st log)
    (hlen : row.cols.length = cfg.num_delta_columns) :
    (∀ st', xpatch_tuple_insert C cfg relid st row = (st', none) →
        EngineInv C cfg relid st' log) ∧
    (∀ st' sq, xpatch_tuple_insert C cfg relid st row = (st', some sq) →
        EngineInv C cfg relid st' (log ++ [(row.group, sq, row.cols)])) := by
  obtain ⟨hcne, hacc, hvis, hlog, hcomp, hfifo⟩ := hinv
  obtain ⟨ha2, ha1ne, haself, haother⟩ :=
    xpatch_alloc_seq_spec relid st.seq_cache st.rows row.group hcne hacc
  have hM0 : (0 : Int) ≤ xpatch_scan_max_seq st.rows row.group :=
    xpatch_scan_max_seq_nonneg st.rows row.group
  have hpos : 0 < (xpatch_alloc_seq relid st.seq_cache st.rows row.group).2 := by omega
  rcases xpatch_tuple_insert_cases C cfg relid st row hpos with
    hfail | ⟨es, blobs, hacq, hmap, hsucc⟩
  · have haself2 : seq_cache_get_max_seq (xpatch_alloc_seq relid st.seq_cache st.rows row.group).1 relid row.group = some (xpatch_alloc_seq relid st.seq_cache st.rows row.group).2 := by
      rw [ha2]
      exact haself
    obtain ⟨hr1, hr2, hr3⟩ := seq_cache_rollback_spec (xpatch_alloc_seq relid st.seq_cache st.rows row.group).1 relid row.group (xpatch_alloc_seq relid st.seq_cache st.rows row.group).2 haself2
    constructor
    · intro st' heq
      rw [hfail] at heq
      injection heq with h1 h2
      subst h1
      refine ⟨hr3, ?_, hvis, hlog, hcomp, hfifo⟩
      intro g v hget
      have hget' : seq_cache_get_max_seq
          (seq_cache_rollback_seq (xpatch_alloc_seq relid st.seq_cache st.rows row.group).1 relid row.group (xpatch_alloc_seq relid st.seq_cache st.rows row.group).2).1 relid g = some v := hget
      by_cases hg : g = row.group
      · subst hg
        rw [hr1] at hget'
        have hv : (xpatch_alloc_seq relid st.seq_cache st.rows row.group).2 - 1 = v := by injection hget'
        show v = xpatch_scan_max_seq st.rows row.group
        omega
      · rw [hr2 relid g (Or.inr hg), haother relid g (Or.inr hg)] at hget'
        exact hacc g v hget'
    · intro st' sq heq
      rw [hfail] at heq
      injection heq with h1 h2
      exact Option.noConfusion h2
  · constructor
    · intro st' heq
      rw [hsucc] at heq
      injection heq with h1 h2
      exact Option.noConfusion h2
    · intro st' sq heq
      rw [hsucc] at heq
      injection heq with h1 h2
      have hsq : (xpatch_alloc_seq relid st.seq_cache st.rows row.group).2 = sq := by injection h2
      subst hsq
      subst h1
      have hmax : xpatch_scan_max_seq st.rows row.group ≤ (xpatch_alloc_seq relid st.seq_cache st.rows row.group).2 - 1 := by omega
      have hacqs := xpatch_acquire_entries_spec C cfg st row.group (xpatch_alloc_seq relid st.seq_cache st.rows row.group).2 _ es
        hfifo hmax hacq
      obtain ⟨hblen, hcol⟩ := encode_columns_reconstruct C hC st.rows row.group
        row.version es cfg.compress_depth (xpatch_alloc_seq relid st.seq_cache st.rows row.group).2 _ row.cols blobs cfg.enable_zstd
        (by omega) (fun r hr => (hvis r hr).1) (fun e he => (hacqs e he).1)
        (fun e he c d => (hacqs e he).2.2 c d) hmap
      have hscan_new : xpatch_scan_max_seq (st.rows ++ [(⟨row.group, (xpatch_alloc_seq relid st.seq_cache st.rows row.group).2, row.version, blobs.map some, false⟩ : PhysRow)]) row.group = (xpatch_alloc_seq relid st.seq_cache st.rows row.group).2 :=
        scan_max_append_new st.rows (⟨row.group, (xpatch_alloc_seq relid st.seq_cache st.rows row.group).2, row.version, blobs.map some, false⟩ : PhysRow) row.group rfl rfl
          (show xpatch_scan_max_seq st.rows row.group < (xpatch_alloc_seq relid st.seq_cache st.rows row.group).2 by omega)
      refine ⟨ha1ne, ?_, ?_, ?_, ?_, ?_⟩
      · intro g v hget
        have hget' : seq_cache_get_max_seq (xpatch_alloc_seq relid st.seq_cache st.rows row.group).1 relid g = some v := hget
        by_cases hg : g = row.group
        · subst hg
          rw [haself] at hget'
          have hv : xpatch_scan_max_seq st.rows row.group + 1 = v := by injection hget'
          show v = xpatch_scan_max_seq (st.rows ++ [(⟨row.group, (xpatch_alloc_seq relid st.seq_cache st.rows row.group).2, row.version, blobs.map some, false⟩ : PhysRow)]) row.group
          rw [hscan_new]
          omega
        · rw [haother relid g (Or.inr hg)] at hget'
          have hv := hacc g v hget'
          show v = xpatch_scan_max_seq (st.rows ++ [(⟨row.group, (xpatch_alloc_seq relid st.seq_cache st.rows row.group).2, row.version, blobs.map some, false⟩ : PhysRow)]) g
          rw [scan_max_append_other st.rows (⟨row.group, (xpatch_alloc_seq relid st.seq_cache st.rows row.group).2, row.version, blobs.map some, false⟩ : PhysRow) g (fun hh => hg hh.symm)]
          exact hv
      · intro r hr
        have hr' : r ∈ st.rows ++ [(⟨row.group, (xpatch_alloc_seq relid st.seq_cache st.rows row.group).2, row.version, blobs.map some, false⟩ : PhysRow)] := hr
        rcases List.mem_append.mp hr' with hold | hnew
        · exact hvis r hold
        · have hrn : r = (⟨row.group, (xpatch_alloc_seq relid st.seq_cache st.rows row.group).2, row.version, blobs.map some, false⟩ : PhysRow) := by simpa using hnew
          subst hrn
          exact ⟨rfl, show (1 : Int) ≤ (xpatch_alloc_seq relid st.seq_cache st.rows row.group).2 by omega⟩
      · intro e he
        have he' : e ∈ log ++ [(row.group, (xpatch_alloc_seq relid st.seq_cache st.rows row.group).2, row.cols)] := he
        rcases List.mem_append.mp he' with hold | hnew
        · obtain ⟨h1', h2', h3', h4'⟩ := hlog e hold
          refine ⟨h1', ?_, h3', ?_⟩
          · show e.2.1 ≤ xpatch_scan_max_seq (st.rows ++ [(⟨row.group, (xpatch_alloc_seq relid st.seq_cache st.rows row.group).2, row.version, blobs.map some, false⟩ : PhysRow)]) e.1
            have := scan_max_append_le st.rows (⟨row.group, (xpatch_alloc_seq relid st.seq_cache st.rows row.group).2, row.version, blobs.map some, false⟩ : PhysRow) e.1
            omega
          · intro c hc
            show xpatch_reconstruct C (st.rows ++ [(⟨row.group, (xpatch_alloc_seq relid st.seq_cache st.rows row.group).2, row.version, blobs.map some, false⟩ : PhysRow)]) e.1 e.2.1 c
              = .ok (some (e.2.2.getD c []))
            rw [xpatch_reconstruct_append C st.rows (⟨row.group, (xpatch_alloc_seq relid st.seq_cache st.rows row.group).2, row.version, blobs.map some, false⟩ : PhysRow) e.1 e.2.1 c
              (by
                by_cases heg : e.1 = row.group
                · refine Or.inr (show e.2.1 < (xpatch_alloc_seq relid st.seq_cache st.rows row.group).2 from ?_)
                  have h2x := h2'
                  rw [heg] at h2x
                  omega
                · exact Or.inl heg)]
            exact h4' c hc
        · have he2 : e = (row.group, (xpatch_alloc_seq relid st.seq_cache st.rows row.group).2, row.cols) := by simpa using hnew
          subst he2
          refine ⟨show (1 : Int) ≤ (xpatch_alloc_seq relid st.seq_cache st.rows row.group).2 by omega, ?_, hlen, ?_⟩
          · show (xpatch_alloc_seq relid st.seq_cache st.rows row.group).2 ≤ xpatch_scan_max_seq (st.rows ++ [(⟨row.group, (xpatch_alloc_seq relid st.seq_cache st.rows row.group).2, row.version, blobs.map some, false⟩ : PhysRow)]) row.group
            rw [hscan_new]
          · intro c hc
            show xpatch_reconstruct C (st.rows ++ [(⟨row.group, (xpatch_alloc_seq relid st.seq_cache st.rows row.group).2, row.version, blobs.map some, false⟩ : PhysRow)]) row.group (xpatch_alloc_seq relid st.seq_cache st.rows row.group).2 c
              = .ok (some (row.cols.getD c []))
            exact hcol c (by omega)
      · intro g sv h1' h2'
        by_cases hg : g = row.group
        · subst hg
          have h2x : sv ≤ xpatch_scan_max_seq (st.rows ++ [(⟨row.group, (xpatch_alloc_seq relid st.seq_cache st.rows row.group).2, row.version, blobs.map some, false⟩ : PhysRow)]) row.group := h2'
          rw [hscan_new] at h2x
          by_cases hs : sv = (xpatch_alloc_seq relid st.seq_cache st.rows row.group).2
          · subst hs
            exact ⟨row.cols, List.mem_append_right _ (by simp)⟩
          · have hsle : sv ≤ xpatch_scan_max_seq st.rows row.group := by omega
            obtain ⟨cs, hcs⟩ := hcomp row.group sv h1' hsle
            exact ⟨cs, List.mem_append_left _ hcs⟩
        · have h2x : sv ≤ xpatch_scan_max_seq (st.rows ++ [(⟨row.group, (xpatch_alloc_seq relid st.seq_cache st.rows row.group).2, row.version, blobs.map some, false⟩ : PhysRow)]) g := h2'
          rw [scan_max_append_other st.rows (⟨row.group, (xpatch_alloc_seq relid st.seq_cache st.rows row.group).2, row.version, blobs.map some, false⟩ : PhysRow) g (fun hh => hg hh.symm)] at h2x
          obtain ⟨cs, hcs⟩ := hcomp g sv h1' h2x
          exact ⟨cs, List.mem_append_left _ hcs⟩
      · intro g es' hlk
        have hlk' : fifo_lookup (fifo_set st.fifo row.group
            (((⟨(xpatch_alloc_seq relid st.seq_cache st.rows row.group).2, row.cols.map (fun x => fifo_push_content (some x))⟩ : FifoEntry) :: es).take cfg.compress_depth)) g = some es' := hlk
        by_cases hg : g = row.group
        · subst hg
          rw [fifo_lookup_set_self] at hlk'
          have hes' : ((⟨(xpatch_alloc_seq relid st.seq_cache st.rows row.group).2, row.cols.map (fun x => fifo_push_content (some x))⟩ : FifoEntry) :: es).take cfg.compress_depth = es' := by injection hlk'
          subst hes'
          intro e he
          have he' : e ∈ (⟨(xpatch_alloc_seq relid st.seq_cache st.rows row.group).2, row.cols.map (fun x => fifo_push_content (some x))⟩ : FifoEntry) :: es := List.take_subset _ _ he
          rcases List.mem_cons.mp he' with hne | hold
          · subst hne
            refine ⟨show (1 : Int) ≤ (xpatch_alloc_seq relid st.seq_cache st.rows row.group).2 by omega, ?_, ?_⟩
            · show (xpatch_alloc_seq relid st.seq_cache st.rows row.group).2 ≤ xpatch_scan_max_seq (st.rows ++ [(⟨row.group, (xpatch_alloc_seq relid st.seq_cache st.rows row.group).2, row.version, blobs.map some, false⟩ : PhysRow)]) row.group
              rw [hscan_new]
            · intro c d hcd
              have hcd' : (row.cols.map (fun x => fifo_push_content (some x))).getD c none
                  = some d := hcd
              by_cases hcl : c < row.cols.length
              · rw [map_push_getD row.cols c hcl] at hcd'
                have hxd := fifo_push_content_eq_some _ d hcd'
                have hd : row.cols.getD c [] = d := by injection hxd
                show xpatch_reconstruct C (st.rows ++ [(⟨row.group, (xpatch_alloc_seq relid st.seq_cache st.rows row.group).2, row.version, blobs.map some, false⟩ : PhysRow)]) row.group (xpatch_alloc_seq relid st.seq_cache st.rows row.group).2 c
                  = .ok (some d)
                rw [← hd]
                exact hcol c hcl
              · rw [map_push_getD_ge row.cols c (by omega)] at hcd'
                exact Option.noConfusion hcd'
          · obtain ⟨h1', h2', h3'⟩ := hacqs e hold
            refine ⟨h1', ?_, ?_⟩
            · show e.seq ≤ xpatch_scan_max_seq (st.rows ++ [(⟨row.group, (xpatch_alloc_seq relid st.seq_cache st.rows row.group).2, row.version, blobs.map some, false⟩ : PhysRow)]) row.group
              rw [hscan_new]
              omega
            · intro c d hcd
              show xpatch_reconstruct C (st.rows ++ [(⟨row.group, (xpatch_alloc_seq relid st.seq_cache st.rows row.group).2, row.version, blobs.map some, false⟩ : PhysRow)]) row.group e.seq c
                = .ok (some d)
              rw [xpatch_reconstruct_append C st.rows (⟨row.group, (xpatch_alloc_seq relid st.seq_cache st.rows row.group).2, row.version, blobs.map some, false⟩ : PhysRow) row.group e.seq c
                (Or.inr (show e.seq < (xpatch_alloc_seq relid st.seq_cache st.rows row.group).2 by omega))]
              exact h3' c d hcd
        · rw [fifo_lookup_set_other st.fifo row.group g _ hg] at hlk'
          intro e he
          obtain ⟨h1', h2', h3'⟩ := hfifo g es' hlk' e he
          refine ⟨h1', ?_, ?_⟩
          · show e.seq ≤ xpatch_scan_max_seq (st.rows ++ [(⟨row.group, (xpatch_alloc_seq relid st.seq_cache st.rows row.group).2, row.version, blobs.map some, false⟩ : PhysRow)]) g
            rw [scan_max_append_other st.rows (⟨row.group, (xpatch_alloc_seq relid st.seq_cache st.rows row.group).2, row.version, blobs.map some, false⟩ : PhysRow) g (fun hh => hg hh.symm)]
            exact h2'
          · intro c d hcd
            show xpatch_reconstruct C (st.rows ++ [(⟨row.group, (xpatch_alloc_seq relid st.seq_cache st.rows row.group).2, row.version, blobs.map some, false⟩ : PhysRow)]) g e.seq c = .ok (some d)
            rw [xpatch_reconstruct_append C st.rows (⟨row.group, (xpatch_alloc_seq relid st.seq_cache st.rows row.group).2, row.version, blobs.map some, false⟩ : PhysRow) g e.seq c (Or.inl hg)]
            exact h3' c d hcd

lemma exceptMapM_ok_of_forall {α β ε : Type} (f : α → Except ε β) :
    ∀ l : List α, (∀ a ∈ l, ∃ b, f a = .ok b) → ∃ bs, l.mapM f = .ok bs := by
  intro l
  induction l with
  | nil => intro _; exact ⟨[], rfl⟩
  | cons a l ih =>
      intro h
      obtain ⟨b, hb⟩ := h a (List.mem_cons_self _ _)
      obtain ⟨bs, hbs⟩ := ih (fun a' ha' => h a' (List.mem_cons_of_mem _ ha'))
      refine ⟨b :: bs, ?_⟩
      rw [List.mapM_cons, hb, hbs]
      rfl

lemma seq_run_from_snoc : ∀ (n : Nat) (a : Int),
    seq_run_from a n ++ [a + (n : Int)] = seq_run_from a (n + 1) := by
  intro n
  induction n with
  | zero =>
      intro a
      show [a + ((0 : Nat) : Int)] = [a]
      norm_num
  | succ m ih =>
      intro a
      have h1 : seq_run_from a (m + 1) = a :: seq_run_from (a + 1) m := rfl
      have h2 : seq_run_from a (m + 2) = a :: seq_run_from (a + 1) (m + 1) := rfl
      rw [h1, h2, List.cons_append]
      have h3 : a + ((m + 1 : Nat) : Int) = (a + 1) + (m : Int) := by push_cast; ring
      rw [h3]
      rw [ih (a + 1)]

/-- The success path of xpatch_tuple_insert, given that acquisition and
every column encode succeed. -/
lemma xpatch_tuple_insert_success_eq (C : Codec) (cfg : XPatchConfig) (relid : Nat)
    (st : EngineState) (row : LogicalRow) (es : List FifoEntry) (blobs : List (List Nat))
    (hacq : xpatch_acquire_entries C cfg st row.group
        (xpatch_alloc_seq relid st.seq_cache st.rows row.group).2
        ((xpatch_alloc_seq relid st.seq_cache st.rows row.group).2 == 1
          || (xpatch_alloc_seq relid st.seq_cache st.rows row.group).2
              % (cfg.keyframe_every : Int) == 1) = .ok es)
    (hmap : row.cols.enum.mapM (fun pc =>
        if ((xpatch_alloc_seq relid st.seq_cache st.rows row.group).2 == 1
            || (xpatch_alloc_seq relid st.seq_cache st.rows row.group).2
                % (cfg.keyframe_every : Int) == 1) then
          encode_keyframe_column C pc.2 cfg.enable_zstd
        else
          encode_delta_column C st.rows row.group es cfg.compress_depth
            (xpatch_alloc_seq relid st.seq_cache st.rows row.group).2 pc.1 pc.2
            cfg.enable_zstd) = .ok blobs) :
    xpatch_tuple_insert C cfg relid st row
      = ({ rows := st.rows ++ [⟨row.group,
            (xpatch_alloc_seq relid st.seq_cache st.rows row.group).2, row.version,
            blobs.map some, false⟩],
           seq_cache := (xpatch_alloc_seq relid st.seq_cache st.rows row.group).1,
           fifo := fifo_set st.fifo row.group
             (((⟨(xpatch_alloc_seq relid st.seq_cache st.rows row.group).2,
                 row.cols.map (fun x => fifo_push_content (some x))⟩ : FifoEntry)
                :: es).take cfg.compress_depth) },
         some (xpatch_alloc_seq relid st.seq_cache st.rows row.group).2) := by
  unfold xpatch_tuple_insert xpatch_logical_to_physical
  simp only [hacq, hmap]
  rfl

/-- Keyframe encode succeeds under totality, and the blob carries tag 0. -/
lemma encode_keyframe_column_success (C : Codec) (hC : C.Contract) (hT : C.EncodeTotal)
    (x : List Nat) (z : Bool) :
    ∃ blob, encode_keyframe_column C x z = .ok blob ∧ C.tag_of blob = .ok 0 := by
  obtain ⟨blob, he, _⟩ := hT 0 [] x z
  refine ⟨blob, ?_, (hC 0 [] x z blob he).2⟩
  unfold encode_keyframe_column
  rw [he]

/-- When the FIFO holds a usable base for the column and the encoder is
total, the delta branch succeeds through the warm path and the resulting
blob carries a delta tag of at least 1. -/
lemma encode_delta_column_warm_success (C : Codec) (hC : C.Contract) (hT : C.EncodeTotal)
    (rows : List PhysRow) (g : Nat) (entries : List FifoEntry) (depth : Nat)
    (new_seq : Int) (c : Nat) (x : List Nat) (z : Bool)
    (e : FifoEntry) (he : e ∈ entries) (d : List Nat)
    (h1 : 1 ≤ new_seq - e.seq) (h2 : new_seq - e.seq ≤ (depth : Int))
    (hcd : e.cols.getD c none = some d) (hdne : d ≠ []) :
    ∃ blob t, encode_delta_column C rows g entries depth new_seq c x z = .ok blob ∧
      1 ≤ t ∧ C.tag_of blob = .ok t := by
  have hdz : (d.length == 0) = false := by
    simp only [beq_eq_false_iff_ne]
    intro hz
    exact hdne (List.length_eq_zero.mp hz)
  have hbmem : ((new_seq - e.seq).toNat, d) ∈ insert_cache_get_bases entries depth new_seq c := by
    unfold insert_cache_get_bases
    rw [(List.perm_insertionSort (fun (a b : Nat × List Nat) => a.1 ≤ b.1) _).mem_iff]
    apply List.mem_filterMap.mpr
    refine ⟨e, he, ?_⟩
    rw [if_neg (by
      simp only [Bool.or_eq_true, decide_eq_true_eq, not_or, not_lt]
      exact ⟨h1, h2⟩)]
    rw [hcd]
    simp only []
    rw [if_neg (by rw [hdz]; exact Bool.false_ne_true)]
  have hlen : 0 < (insert_cache_get_bases entries depth new_seq c).length :=
    List.length_pos_of_mem hbmem
  have hres : (((new_seq - e.seq).toNat : Nat), C.encode (new_seq - e.seq).toNat d x z)
      ∈ (insert_cache_get_bases entries depth new_seq c).map
        (fun p => (p.1, C.encode p.1 p.2 x z)) :=
    List.mem_map.mpr ⟨((new_seq - e.seq).toNat, d), hbmem, rfl⟩
  obtain ⟨blob0, henc0, hne0⟩ := hT (new_seq - e.seq).toNat d x z
  have hsome : (pick_smallest_warm ((insert_cache_get_bases entries depth new_seq c).map
      (fun p => (p.1, C.encode p.1 p.2 x z)))).isSome := by
    exact warm_fold_isSome_of_mem _ none _ blob0 hres henc0 hne0
  obtain ⟨b, hb⟩ := Option.isSome_iff_exists.mp hsome
  have hchoice : delta_candidate_choice C rows g entries depth new_seq c x z
      = .ok (some b) := by
    unfold delta_candidate_choice
    rw [if_pos hlen, hb]
  have henc : encode_delta_column C rows g entries depth new_seq c x z = .ok b.2 := by
    unfold encode_delta_column
    rw [hchoice]
  rcases warm_fold_mem _ none b hb with hcontr | ⟨hmem, _⟩
  · cases hcontr
  · rcases List.mem_map.mp hmem with ⟨q, hq, hqe⟩
    injection hqe with hq1 hq2
    obtain ⟨e', he', ht1, _, htageq, _, _⟩ :=
      insert_cache_get_bases_mem entries depth new_seq c q hq
    obtain ⟨_, htag⟩ := hC q.1 q.2 x z b.2 hq2
    refine ⟨b.2, b.1, henc, by omega, ?_⟩
    rw [← hq1]
    exact htag

lemma C5Inv_init (C : Codec) (cfg : XPatchConfig) (relid g : Nat) :
    C5Inv C cfg relid g 0 init_state [] := by
  refine ⟨EngineInv_init C cfg relid, rfl, ?_, ?_, ?_, ?_⟩
  · intro r hr
    simp [init_state] at hr
  · show xpatch_scan_max_seq ([] : List PhysRow) g = ((0 : Nat) : Int)
    norm_num
    rfl
  · intro r hr
    simp [init_state] at hr
  · intro h
    exact absurd h (by omega)

lemma getD_mem_of_lt (l : List (List Nat)) (c : Nat) (h : c < l.length) :
    l.getD c [] ∈ l := by
  rw [List.getD_eq_getElem?_getD, List.getElem?_eq_getElem h]
  exact List.getElem_mem h

lemma enum_getD_mem (l : List (List Nat)) (c : Nat) (h : c < l.enum.length) :
    l.enum.getD c ((0 : Nat), ([] : List Nat)) ∈ l.enum := by
  rw [List.getD_eq_getElem?_getD, List.getElem?_eq_getElem h]
  exact List.getElem_mem h

/-- One insert of a non-empty-content row into the running C5 scenario:
the insert succeeds, is assigned sequence k + 1, and the scenario
invariant advances. -/
lemma C5_step (C : Codec) (hC : C.Contract) (hT : C.EncodeTotal)
    (cfg : XPatchConfig) (relid g : Nat) (hd : 1 ≤ cfg.compress_depth)
    (st : EngineState) (log : List (Nat × Int × List (List Nat))) (k : Nat)
    (row : LogicalRow) (hrow : row.group = g)
    (hlen : row.cols.length = cfg.num_delta_columns)
    (hne : ∀ x ∈ row.cols, x ≠ [])
    (hinv : C5Inv C cfg relid g k st log) :
    ∃ st', xpatch_tuple_insert C cfg relid st row = (st', some ((k : Int) + 1)) ∧
      C5Inv C cfg relid g (k + 1) st' (log ++ [(row.group, (k : Int) + 1, row.cols)]) := by
  obtain ⟨hEI, hseqmap, hgrp, hscan, htags, hfifoK⟩ := hinv
  have hEI' := hEI
  obtain ⟨hcne, hacc, hvis, hlog, hcomp, hfifo6⟩ := hEI'
  obtain ⟨ha2, ha1ne, haself, haother⟩ :=
    xpatch_alloc_seq_spec relid st.seq_cache st.rows row.group hcne hacc
  have hA2 : (xpatch_alloc_seq relid st.seq_cache st.rows row.group).2 = (k : Int) + 1 := by
    rw [ha2, hrow, hscan]
  have hkf_iff : (((xpatch_alloc_seq relid st.seq_cache st.rows row.group).2 == 1 || (xpatch_alloc_seq relid st.seq_cache st.rows row.group).2 % (cfg.keyframe_every : Int) == 1) = true)
      ↔ ((k : Int) + 1 = 1 ∨ ((k : Int) + 1) % (cfg.keyframe_every : Int) = 1) := by
    rw [hA2]
    simp only [Bool.or_eq_true, beq_iff_eq]
  have hacqx : ∃ es0, xpatch_acquire_entries C cfg st row.group (xpatch_alloc_seq relid st.seq_cache st.rows row.group).2 ((xpatch_alloc_seq relid st.seq_cache st.rows row.group).2 == 1 || (xpatch_alloc_seq relid st.seq_cache st.rows row.group).2 % (cfg.keyframe_every : Int) == 1) = .ok es0 ∧
      (0 < k → ∃ e es', es0 = e :: es' ∧ e.seq = (k : Int) ∧
        (∀ c, c < cfg.num_delta_columns → ∃ d, e.cols.getD c none = some d ∧ d ≠ [])) := by
    cases hl : fifo_lookup st.fifo row.group with
    | some es0 =>
        refine ⟨es0, ?_, ?_⟩
        · unfold xpatch_acquire_entries
          rw [hl]
        · intro hk
          obtain ⟨e, es', hlk, hseq, hcols⟩ := hfifoK hk
          rw [hrow] at hl
          rw [hl] at hlk
          have hes : es0 = e :: es' := by injection hlk
          exact ⟨e, es', hes, hseq, hcols⟩
    | none =>
        have hk0 : k = 0 := by
          by_contra hknz
          obtain ⟨e, es', hlk, -, -⟩ := hfifoK (Nat.pos_of_ne_zero hknz)
          rw [hrow] at hl
          rw [hl] at hlk
          exact Option.noConfusion hlk
        have h11 : (xpatch_alloc_seq relid st.seq_cache st.rows row.group).2 = 1 := by
          rw [hA2, hk0]
          norm_num
        refine ⟨[], ?_, fun hk => absurd hk (by omega)⟩
        unfold xpatch_acquire_entries
        rw [hl]
        rw [if_neg (by rw [h11]; simp)]
  obtain ⟨es0, hacq0, hfk⟩ := hacqx
  have hcols : ∀ pc ∈ row.cols.enum,
      ∃ b, (if ((xpatch_alloc_seq relid st.seq_cache st.rows row.group).2 == 1 || (xpatch_alloc_seq relid st.seq_cache st.rows row.group).2 % (cfg.keyframe_every : Int) == 1) then encode_keyframe_column C pc.2 cfg.enable_zstd
          else encode_delta_column C st.rows row.group es0 cfg.compress_depth (xpatch_alloc_seq relid st.seq_cache st.rows row.group).2 pc.1 pc.2
            cfg.enable_zstd) = .ok b ∧
        ((((xpatch_alloc_seq relid st.seq_cache st.rows row.group).2 == 1 || (xpatch_alloc_seq relid st.seq_cache st.rows row.group).2 % (cfg.keyframe_every : Int) == 1) = true) → C.tag_of b = .ok 0) ∧
        ((((xpatch_alloc_seq relid st.seq_cache st.rows row.group).2 == 1 || (xpatch_alloc_seq relid st.seq_cache st.rows row.group).2 % (cfg.keyframe_every : Int) == 1) = false) → ∃ t : Nat, 1 ≤ t ∧ C.tag_of b = .ok t) := by
    intro pc hpc
    by_cases hkf : ((xpatch_alloc_seq relid st.seq_cache st.rows row.group).2 == 1 || (xpatch_alloc_seq relid st.seq_cache st.rows row.group).2 % (cfg.keyframe_every : Int) == 1) = true
    · obtain ⟨blob, hok, htag⟩ := encode_keyframe_column_success C hC hT pc.2 cfg.enable_zstd
      refine ⟨blob, ?_, fun _ => htag,
        fun hf => absurd hkf (by rw [hf]; exact Bool.false_ne_true)⟩
      rw [if_pos hkf]
      exact hok
    · have hP : ¬ ((k : Int) + 1 = 1 ∨ ((k : Int) + 1) % (cfg.keyframe_every : Int) = 1) :=
        fun hp => hkf (hkf_iff.mpr hp)
      have hk1 : 0 < k := by
        by_contra h0
        have hk0 : k = 0 := by omega
        exact hP (Or.inl (by rw [hk0]; norm_num))
      obtain ⟨e, es', hes0, heseq, hecols⟩ := hfk hk1
      rcases List.mem_iff_getElem.mp hpc with ⟨i, hi, hie⟩
      have hil : i < row.cols.length := by simpa using hi
      have hpc1 : pc.1 = i := by
        rw [← hie]
        simp [List.getElem_enum]
      obtain ⟨dd, hdd, hddne⟩ := hecols pc.1 (by rw [hpc1]; omega)
      obtain ⟨blob, t, hok, ht1, htag⟩ := encode_delta_column_warm_success C hC hT st.rows
        row.group es0 cfg.compress_depth (xpatch_alloc_seq relid st.seq_cache st.rows row.group).2 pc.1 pc.2 cfg.enable_zstd e
        (by rw [hes0]; exact List.mem_cons_self _ _) dd
        (by rw [hA2, heseq]; omega)
        (by rw [hA2, heseq]; omega)
        hdd hddne
      refine ⟨blob, ?_, fun ht => absurd ht hkf, fun _ => ⟨t, ht1, htag⟩⟩
      rw [if_neg hkf]
      exact hok
  have hex : ∀ pc ∈ row.cols.enum,
      ∃ b, (fun pc : Nat × List Nat =>
        if ((xpatch_alloc_seq relid st.seq_cache st.rows row.group).2 == 1 || (xpatch_alloc_seq relid st.seq_cache st.rows row.group).2 % (cfg.keyframe_every : Int) == 1) then encode_keyframe_column C pc.2 cfg.enable_zstd
        else encode_delta_column C st.rows row.group es0 cfg.compress_depth (xpatch_alloc_seq relid st.seq_cache st.rows row.group).2 pc.1 pc.2
          cfg.enable_zstd) pc = .ok b := by
    intro pc hpc
    obtain ⟨b, hb, -, -⟩ := hcols pc hpc
    exact ⟨b, hb⟩
  obtain ⟨blobs, hmap⟩ := exceptMapM_ok_of_forall _ row.cols.enum hex
  have hsucc := xpatch_tuple_insert_success_eq C cfg relid st row es0 blobs hacq0 hmap
  obtain ⟨hblen0, hbget⟩ := exceptMapM_spec _ ((0 : Nat), ([] : List Nat)) ([] : List Nat)
    _ blobs hmap
  have hblen : blobs.length = row.cols.length := by simpa using hblen0
  refine ⟨_, by rw [hsucc, hA2], ?_⟩
  refine ⟨?_, ?_, ?_, ?_, ?_, ?_⟩
  · obtain ⟨-, hsome⟩ := insert_step_inv C cfg relid st row log hC hEI hlen
    exact hsome _ ((k : Int) + 1) (by rw [hsucc, hA2])
  · show (st.rows ++ [(⟨row.group, (k : Int) + 1, row.version, blobs.map some, false⟩ : PhysRow)]).map PhysRow.seq = seq_run_from 1 (k + 1)
    have hsnoc := seq_run_from_snoc k 1
    rw [show (1 : Int) + (k : Int) = (k : Int) + 1 from by ring] at hsnoc
    rw [List.map_append, hseqmap, ← hsnoc]
    rfl
  · intro r hr
    have hr' : r ∈ st.rows ++ [(⟨row.group, (k : Int) + 1, row.version, blobs.map some, false⟩ : PhysRow)] := hr
    rcases List.mem_append.mp hr' with hold | hnew
    · exact hgrp r hold
    · have hrn : r = (⟨row.group, (k : Int) + 1, row.version, blobs.map some, false⟩ : PhysRow) := by simpa using hnew
      subst hrn
      exact hrow
  · show xpatch_scan_max_seq (st.rows ++ [(⟨row.group, (k : Int) + 1, row.version, blobs.map some, false⟩ : PhysRow)]) g = ((k + 1 : Nat) : Int)
    have hax := scan_max_append_new st.rows (⟨row.group, (k : Int) + 1, row.version, blobs.map some, false⟩ : PhysRow) g hrow rfl
      (by show xpatch_scan_max_seq st.rows g < (k : Int) + 1; rw [hscan]; omega)
    rw [hax]
    show (k : Int) + 1 = ((k + 1 : Nat) : Int)
    push_cast
    ring
  · intro r hr c hc
    have hr' : r ∈ st.rows ++ [(⟨row.group, (k : Int) + 1, row.version, blobs.map some, false⟩ : PhysRow)] := hr
    rcases List.mem_append.mp hr' with hold | hnew
    · exact htags r hold c hc
    · have hrn : r = (⟨row.group, (k : Int) + 1, row.version, blobs.map some, false⟩ : PhysRow) := by simpa using hnew
      subst hrn
      have hce : c < row.cols.enum.length := by
        simp only [List.enum_length]
        omega
      have hmem_e := enum_getD_mem row.cols c hce
      obtain ⟨b, hb, htag0, htagn⟩ := hcols _ hmem_e
      have hfe := hbget c hce
      rw [hb] at hfe
      have hbe : b = blobs.getD c [] := by injection hfe
      subst hbe
      refine ⟨blobs.getD c [], map_some_getD blobs c (by omega),
        fun hcond => htag0 (hkf_iff.mpr hcond), fun hcond => ?_⟩
      refine htagn ?_
      cases hkfb : ((xpatch_alloc_seq relid st.seq_cache st.rows row.group).2 == 1 || (xpatch_alloc_seq relid st.seq_cache st.rows row.group).2 % (cfg.keyframe_every : Int) == 1)
      · rfl
      · exact absurd (hkf_iff.mp hkfb) hcond
  · intro hk
    obtain ⟨d', hd'⟩ : ∃ d', cfg.compress_depth = d' + 1 := ⟨cfg.compress_depth - 1, by omega⟩
    refine ⟨(⟨(k : Int) + 1, row.cols.map (fun x => fifo_push_content (some x))⟩ : FifoEntry), es0.take d', ?_, ?_, ?_⟩
    · show fifo_lookup (fifo_set st.fifo row.group
          (((⟨(k : Int) + 1, row.cols.map (fun x => fifo_push_content (some x))⟩ : FifoEntry) :: es0).take cfg.compress_depth)) g = some ((⟨(k : Int) + 1, row.cols.map (fun x => fifo_push_content (some x))⟩ : FifoEntry) :: es0.take d')
      rw [hrow, fifo_lookup_set_self, hd', List.take_succ_cons]
    · show (k : Int) + 1 = ((k + 1 : Nat) : Int)
      push_cast
      ring
    · intro c hcc
      have hcl : c < row.cols.length := by omega
      have hmemx := getD_mem_of_lt row.cols c hcl
      have hxne := hne _ hmemx
      refine ⟨row.cols.getD c [], ?_, hxne⟩
      show (row.cols.map (fun x => fifo_push_content (some x))).getD c none
        = some (row.cols.getD c [])
      rw [map_push_getD row.cols c hcl]
      unfold fifo_push_content
      simp only []
      rw [if_neg (by
        simp only [beq_iff_eq, List.length_eq_zero]
        exact hxne)]

lemma C5_run (C : Codec) (hC : C.Contract) (hT : C.EncodeTotal)
    (cfg : XPatchConfig) (relid g : Nat) (hdep : 1 ≤ cfg.compress_depth) :
    ∀ (inserts : List LogicalRow) (st : EngineState)
      (log : List (Nat × Int × List (List Nat))) (k : Nat),
      (∀ row ∈ inserts, row.group = g ∧ row.cols.length = cfg.num_delta_columns ∧
          ∀ x ∈ row.cols, x ≠ []) →
      C5Inv C cfg relid g k st log →
      C5Inv C cfg relid g (k + inserts.length)
        (run_inserts C cfg relid st log inserts).1
        (run_inserts C cfg relid st log inserts).2 := by
  intro inserts
  induction inserts with
  | nil =>
      intro st log k _ hinv
      simpa using hinv
  | cons row rest ih =>
      intro st log k hrows hinv
      obtain ⟨hg, hl, hn⟩ := hrows row (List.mem_cons_self _ _)
      obtain ⟨st', hstep, hinv'⟩ := C5_step C hC hT cfg relid g hdep st log k row hg hl hn hinv
      have hrun : run_inserts C cfg relid st log (row :: rest)
          = run_inserts C cfg relid st'
              (log ++ [(row.group, (k : Int) + 1, row.cols)]) rest := by
        conv_lhs => unfold run_inserts
        rw [hstep]
      rw [hrun]
      rw [show k + (row :: rest).length = (k + 1) + rest.length from by
        simp only [List.length_cons]
        omega]
      exact ih st' (log ++ [(row.group, (k : Int) + 1, row.cols)]) (k + 1)
        (fun r hr => hrows r (List.mem_cons_of_mem _ hr)) hinv'

/-- C5 (amended: keyframe period K ≥ 2; the code decides
is_keyframe = (s == 1 || s mod K == 1), so for K = 1 only sequence 1 is
a keyframe even though the claimed set {1, K+1, 2K+1, ...} is all
sequences): inserting N rows with non-empty column contents into an
initially empty group in normal mode, under a codec satisfying the
contract whose encoder never refuses, yields exactly N rows with
sequences 1..N in physical order, and the rows whose delta blobs carry
tag 0 (keyframes) are exactly those at sequences s in
{1, K+1, 2K+1, ...}. -/
theorem C5_keyframe_schedule (C : Codec) (cfg : XPatchConfig) (relid g : Nat)
    (hC : C.Contract) (hT : C.EncodeTotal)
    (hK : 2 ≤ cfg.keyframe_every) (hdep : 1 ≤ cfg.compress_depth)
    (inserts : List LogicalRow)
    (hrows : ∀ row ∈ inserts, row.group = g ∧ row.cols.length = cfg.num_delta_columns ∧
        ∀ x ∈ row.cols, x ≠ []) :
    (run_inserts C cfg relid init_state [] inserts).1.rows.map PhysRow.seq
        = seq_run_from 1 inserts.length ∧
    (∀ r ∈ (run_inserts C cfg relid init_state [] inserts).1.rows,
      ∀ c, c < cfg.num_delta_columns →
        ∃ blob, r.blobs.getD c none = some blob ∧
          (C.tag_of blob = .ok 0 ↔
            ∃ m : Nat, r.seq = (m : Int) * (cfg.keyframe_every : Int) + 1)) := by
  have hfin := C5_run C hC hT cfg relid g hdep inserts init_state [] 0 hrows
    (C5Inv_init C cfg relid g)
  obtain ⟨hEI, hseqmap, hgrp, hscan, htags, -⟩ := hfin
  constructor
  · simpa using hseqmap
  · intro r hr c hc
    obtain ⟨blob, hblob, htag0, htagn⟩ := htags r hr c hc
    have hr1 : 1 ≤ r.seq := (hEI.2.2.1 r hr).2
    have hK1 : (1 : Int) < (cfg.keyframe_every : Int) := by
      exact_mod_cast (by omega : 1 < cfg.keyframe_every)
    refine ⟨blob, hblob, ?_, ?_⟩
    · intro ht0
      by_cases hcond : (r.seq = 1 ∨ r.seq % (cfg.keyframe_every : Int) = 1)
      · rcases hcond with h1 | hm
        · exact ⟨0, by rw [h1]; norm_num⟩
        · refine ⟨(r.seq / (cfg.keyframe_every : Int)).toNat, ?_⟩
          have hdiv : (cfg.keyframe_every : Int) * (r.seq / (cfg.keyframe_every : Int))
              + r.seq % (cfg.keyframe_every : Int) = r.seq := Int.ediv_add_emod r.seq _
          have hdivnn : 0 ≤ r.seq / (cfg.keyframe_every : Int) :=
            Int.ediv_nonneg (by omega) (by omega)
          rw [Int.toNat_of_nonneg hdivnn, mul_comm]
          omega
      · exfalso
        obtain ⟨t, ht1, htg⟩ := htagn hcond
        rw [ht0] at htg
        have h0t : (0 : Nat) = t := by injection htg
        omega
    · rintro ⟨m, hm⟩
      apply htag0
      by_cases hm0 : m = 0
      · left
        rw [hm, hm0]
        norm_num
      · right
        rw [hm]
        have h1K : (1 : Int) % (cfg.keyframe_every : Int) = 1 :=
          Int.emod_eq_of_lt (by omega) hK1
        calc ((m : Int) * (cfg.keyframe_every : Int) + 1) % (cfg.keyframe_every : Int)
            = (1 + (m : Int) * (cfg.keyframe_every : Int)) % (cfg.keyframe_every : Int) := by
              ring_nf
          _ = 1 % (cfg.keyframe_every : Int) := Int.add_mul_emod_self
          _ = 1 := h1K

theorem C5_keyframe_schedule_witness :
    trivialCodec.Contract ∧ trivialCodec.EncodeTotal ∧
    (∀ row ∈ [(⟨7, 10, [[5]]⟩ : LogicalRow), ⟨7, 20, [[6]]⟩, ⟨7, 30, [[7]]⟩],
        row.group = 7 ∧
        row.cols.length = (⟨2, 1, 1, false⟩ : XPatchConfig).num_delta_columns ∧
        ∀ x ∈ row.cols, x ≠ []) ∧
    ((run_inserts trivialCodec ⟨2, 1, 1, false⟩ 1 init_state []
        [⟨7, 10, [[5]]⟩, ⟨7, 20, [[6]]⟩, ⟨7, 30, [[7]]⟩]).1.rows.map PhysRow.seq
        = seq_run_from 1
            [(⟨7, 10, [[5]]⟩ : LogicalRow), ⟨7, 20, [[6]]⟩, ⟨7, 30, [[7]]⟩].length ∧
     (∀ r ∈ (run_inserts trivialCodec ⟨2, 1, 1, false⟩ 1 init_state []
          [⟨7, 10, [[5]]⟩, ⟨7, 20, [[6]]⟩, ⟨7, 30, [[7]]⟩]).1.rows,
        ∀ c, c < (⟨2, 1, 1, false⟩ : XPatchConfig).num_delta_columns →
          ∃ blob, r.blobs.getD c none = some blob ∧
            (trivialCodec.tag_of blob = .ok 0 ↔
              ∃ m : Nat, r.seq = (m : Int)
                * ((⟨2, 1, 1, false⟩ : XPatchConfig).keyframe_every : Int) + 1))) :=
  ⟨trivialCodec_contract, trivialCodec_encode_total, by decide,
    C5_keyframe_schedule trivialCodec ⟨2, 1, 1, false⟩ 1 7 trivialCodec_contract
      trivialCodec_encode_total (by decide) (by decide)
      [⟨7, 10, [[5]]⟩, ⟨7, 20, [[6]]⟩, ⟨7, 30, [[7]]⟩] (by decide)⟩

/-- C5 counterexample, keyframe period K = 1: after two inserts into an
empty group the row at sequence 2 stores a blob with delta tag 1, not
tag 0, although 2 = 1·K + 1 lies in the claimed keyframe set
{1, K+1, 2K+1, ...}; the code's rule (s == 1 || s mod K == 1) never
fires at s = 2 because 2 mod 1 = 0. -/
theorem C5_counterexample :
    ((run_inserts trivialCodec ⟨1, 1, 1, false⟩ 1 init_state []
        [⟨7, 10, [[5]]⟩, ⟨7, 20, [[6]]⟩]).1.rows.map
      (fun r => (r.seq, r.blobs.getD 0 none)))
      = [(1, some [0, 5]), (2, some [1, 6])] ∧
    trivialCodec.tag_of [1, 6] = .ok 1 ∧
    (2 : Int) = (1 : Int) * ((⟨1, 1, 1, false⟩ : XPatchConfig).keyframe_every : Int) + 1 :=
  ⟨by decide, rfl, by decide⟩

end PgXpatch
